import Mathlib

/-!
# Verification of the single-elimination tournament manager

Shallow embedding of the core logic of `src/app.py` (a Streamlit bracket
manager): the AVL match index (`avl_ins`, `avl_find`), the bracket builder
(`create_bracket_rec`, `fix_rounds`, `get_depth`, `generate_ko`), result
reporting (`update_match_generic`) and the propagator (`check_schedule`).

Python `Player` objects are mutable records shared between the registry and
the match slots; since every player carries a unique id and slots only ever
hold registered players, object identity coincides with id equality, so the
embedding stores player ids (`Nat`) in match slots and keeps the cumulative
counters in an explicit registry list.  Match records are likewise identified
by their unique `match_id`; the FIFO ready queue stores match ids (the Python
queue stores node pointers, and a node is determined by its match id).  The
mutable tree becomes a purely functional tree that the operations rebuild.
-/

set_option maxHeartbeats 1000000

namespace Bracket

/-! ## AVL index (`AVLNode`, `avl_h`, `avl_bal`, rotations, `avl_ins`, `avl_find`) -/

/-- Embedding of the Python `AVLNode` (key, match pointer, children, cached
height); `nil` plays the role of Python `None`. The match pointer is
represented by the id of the match node it references. -/
inductive AVL where
  | nil : AVL
  | node (key : Nat) (mptr : Nat) (left : AVL) (right : AVL) (height : Nat) : AVL
  deriving DecidableEq

/-- `avl_h(n)`: cached height, 0 for `None`. -/
def avl_h : AVL → Nat
  | .nil => 0
  | .node _ _ _ _ h => h

/-- `avl_bal(n)`: left height minus right height (0 for `None`). -/
def avl_bal : AVL → Int
  | .nil => 0
  | .node _ _ l r _ => (avl_h l : Int) - (avl_h r : Int)

/-- `avl_rot_r(y)`: right rotation, recomputing the two heights in the same
order as the source (`y` first, then `x`).  The source would fault if
`y.left` were `None`; that situation is unreachable (it only runs when the
balance factor exceeds 1), and the embedding returns the tree unchanged
there. -/
def avl_rot_r : AVL → AVL
  | .node ky vy (.node kx vx a t2 _) ry _ =>
      let y' := AVL.node ky vy t2 ry (1 + max (avl_h t2) (avl_h ry))
      AVL.node kx vx a y' (1 + max (avl_h a) (avl_h y'))
  | t => t

/-- `avl_rot_l(x)`: left rotation, recomputing heights in source order
(`x` first, then `y`).  Unreachable `None` case returns the tree unchanged. -/
def avl_rot_l : AVL → AVL
  | .node kx vx lx (.node ky vy t2 c _) _ =>
      let x' := AVL.node kx vx lx t2 (1 + max (avl_h lx) (avl_h t2))
      AVL.node ky vy x' c (1 + max (avl_h x') (avl_h c))
  | t => t

/-- Key of the root (`node.key`); the source never reads the key of `None`
on a reachable path, the embedding defaults to 0 there. -/
def avl_key : AVL → Nat
  | .nil => 0
  | .node k _ _ _ _ => k

/-- Left child accessor. -/
def avl_left : AVL → AVL
  | .nil => .nil
  | .node _ _ l _ _ => l

/-- Right child accessor. -/
def avl_right : AVL → AVL
  | .nil => .nil
  | .node _ _ _ r _ => r

/-- The four-way rebalancing decision performed at the end of `avl_ins`
(the source re-reads the freshly updated node): single or double rotation
selected by the balance factor and the inserted key versus the child key. -/
def avl_rebal (t : AVL) (key : Nat) : AVL :=
  if avl_bal t > 1 ∧ key < avl_key (avl_left t) then avl_rot_r t
  else if avl_bal t < -1 ∧ key > avl_key (avl_right t) then avl_rot_l t
  else if avl_bal t > 1 ∧ key > avl_key (avl_left t) then
    match t with
    | .node k v l r h => avl_rot_r (.node k v (avl_rot_l l) r h)
    | .nil => .nil
  else if avl_bal t < -1 ∧ key < avl_key (avl_right t) then
    match t with
    | .node k v l r h => avl_rot_l (.node k v l (avl_rot_r r) h)
    | .nil => .nil
  else t

/-- Embedding of `avl_ins(node, key, mptr)`: standard AVL insertion; a
duplicate key returns the subtree unchanged before any height update or
rebalancing. -/
def avl_ins (t : AVL) (key : Nat) (mptr : Nat) : AVL :=
  match t with
  | .nil => .node key mptr .nil .nil 1
  | .node k v l r h =>
    if key < k then
      let l' := avl_ins l key mptr
      avl_rebal (.node k v l' r (1 + max (avl_h l') (avl_h r))) key
    else if key > k then
      let r' := avl_ins r key mptr
      avl_rebal (.node k v l r' (1 + max (avl_h l) (avl_h r'))) key
    else
      .node k v l r h

/-- Embedding of `avl_find(node, key)`: returns the stored match pointer,
`none` for a miss (the source returns the node or `None`; the node is
determined by its key and pointer). -/
def avl_find : AVL → Nat → Option Nat
  | .nil, _ => none
  | .node k v l r _, key =>
      if k = key then some v
      else if key < k then avl_find l key else avl_find r key

/-- The cached heights are the true heights (`height` of a leaf is 1, of a
missing child 0). -/
def avlHeightsOk : AVL → Bool
  | .nil => true
  | .node _ _ l r h =>
      (h = 1 + max (avl_h l) (avl_h r) : Bool) && avlHeightsOk l && avlHeightsOk r

/-- Every balance factor lies in `[-1, 1]`. -/
def avlBalancedOk : AVL → Bool
  | .nil => true
  | t@(.node _ _ l r _) =>
      (avl_bal t ≤ 1 : Bool) && (-1 ≤ avl_bal t : Bool) &&
      avlBalancedOk l && avlBalancedOk r

/-- Shape invariant of the balanced index: correct cached heights and
balance factors within `[-1, 1]`. -/
def AvlOk (t : AVL) : Bool := avlHeightsOk t && avlBalancedOk t

/-! ## Tournament data model (`Player`, `Match`, `MatchNode`, session state) -/

/-- Embedding of the Python `Player`: identity plus cumulative counters.
The registry list owns one record per player id. -/
structure Player where
  id : Nat
  name : String := ""
  wins : Nat := 0
  losses : Nat := 0
  score_for : Nat := 0
  score_against : Nat := 0
  deriving DecidableEq

/-- Embedding of the Python `Match`.  Entrant slots and the winner store
player ids; `round` is an `Int` because `fix_rounds` computes it by
(unclamped) subtraction. -/
structure Match where
  match_id : Nat
  player1 : Option Nat := none
  player2 : Option Nat := none
  winner : Option Nat := none
  round : Int := 0
  is_from_losers : Bool := false
  is_leaf : Bool := false
  player1_score : Nat := 0
  player2_score : Nat := 0
  deriving DecidableEq

/-- Embedding of the Python `MatchNode` tree (`nil` for an absent child). -/
inductive MatchTree where
  | nil : MatchTree
  | node (m : Match) (left : MatchTree) (right : MatchTree) : MatchTree
  deriving DecidableEq

namespace MatchTree

/-- `node.match.is_leaf` of a root, false for an absent node (Python
truthiness of `None` short-circuits before the field read). -/
def isLeafRoot : MatchTree → Bool
  | .nil => false
  | .node m _ _ => m.is_leaf

/-- `node.match.player1` of a root (`none` for an absent node). -/
def rootPlayer1 : MatchTree → Option Nat
  | .nil => none
  | .node m _ _ => m.player1

/-- `node.match.winner` of a root (`none` for an absent node; Python
truthiness of both `None` node and `None` winner collapses to `none`). -/
def rootWinner : MatchTree → Option Nat
  | .nil => none
  | .node m _ _ => m.winner

/-- All match records of the tree, root first. -/
def matchList : MatchTree → List Match
  | .nil => []
  | .node m l r => m :: (matchList l ++ matchList r)

/-- All match ids of the tree, root first. -/
def idList : MatchTree → List Nat
  | .nil => []
  | .node m l r => m.match_id :: (idList l ++ idList r)

/-- Number of leaf matches (nodes flagged `is_leaf`). -/
def leafCount : MatchTree → Nat
  | .nil => 0
  | .node m l r => (if m.is_leaf then 1 else 0) + leafCount l + leafCount r

/-- Number of internal (non-leaf) matches. -/
def internalCount : MatchTree → Nat
  | .nil => 0
  | .node m l r => (if m.is_leaf then 0 else 1) + internalCount l + internalCount r

/-- Apply a function to every match record, preserving the shape. -/
def mapMatches (f : Match → Match) : MatchTree → MatchTree
  | .nil => .nil
  | .node m l r => .node (f m) (mapMatches f l) (mapMatches f r)

end MatchTree

/-- A direction into the tree: left or right child. -/
inductive Dir where
  | L : Dir
  | R : Dir
  deriving DecidableEq

/-- Subtree at a path (root-first list of directions); `none` when the path
walks off the tree. -/
def sub : MatchTree → List Dir → Option MatchTree
  | t, [] => some t
  | .nil, _ :: _ => none
  | .node _ l _, .L :: p => sub l p
  | .node _ _ r, .R :: p => sub r p

/-- The source design's per-session mutable state (`st.session_state`),
restricted to the knockout core: mode string, player registry, id counters,
bracket root, ready queue (of match ids), AVL index and the played-matches
counter. -/
structure Session where
  mode : String := "None"
  players : List Player := []
  next_pid : Nat := 1000
  next_mid : Nat := 100
  bracket_root : MatchTree := .nil
  match_queue : List Nat := []
  avl_root : AVL := .nil
  matches_played : Nat := 0
  deriving DecidableEq

/-! ## Bracket construction (`create_bracket_rec`, `fix_rounds`, `get_depth`,
`generate_ko`) -/

/-- The state threaded through `create_bracket_rec`: the `next_mid` counter,
the AVL index fed by `create_match_node`, and the ready queue. -/
structure GenState where
  next_mid : Nat
  avl : AVL
  queue : List Nat
  deriving DecidableEq

/-- `create_match_node(r)`: allocate a fresh match id, register the node in
the AVL index (the stored pointer is the node's id) and bump the counter. -/
def create_match_node (r : Int) (st : GenState) : Match × GenState :=
  ({ match_id := st.next_mid, round := r },
   { st with next_mid := st.next_mid + 1,
             avl := avl_ins st.avl st.next_mid st.next_mid })

/-- Worker for `create_bracket_rec(parts, s, e)` with an explicit structural
fuel so that the recursion is kernel-computable.  On every reachable call the
fuel is at least `e - s`, so the window splits exactly as in the source:
`e ≤ s` (i.e. `s == e` on reachable inputs) yields a leaf match (round 1,
`is_leaf`, slot 1 holding the entrant); otherwise the window splits at the
floor midpoint, and a parent whose two children are both leaves is a genuine
first-round match: its slots are filled from the leaves, its round is set
to 1 and it is appended to the ready queue.  Each recursive window has size
at most `e - s - 1`, so fuel `e - s` always suffices and the `fuel = 0`
fallback is unreachable. -/
def create_bracket_go (parts : List Nat) : Nat → Nat → Nat → GenState →
    MatchTree × GenState
  | fuel, s, e, st =>
    if e ≤ s then
      let (m, st') := create_match_node 1 st
      (.node { m with is_leaf := true, player1 := parts.get? s } .nil .nil, st')
    else
      match fuel with
      | 0 => (.nil, st)
      | fuel' + 1 =>
        let mid := (s + e) / 2
        let (l, st1) := create_bracket_go parts fuel' s mid st
        let (r, st2) := create_bracket_go parts fuel' (mid + 1) e st1
        let (pm, st3) := create_match_node 0 st2
        if l.isLeafRoot && r.isLeafRoot then
          let pm' := { pm with player1 := l.rootPlayer1, player2 := r.rootPlayer1,
                               round := 1 }
          (.node pm' l r, { st3 with queue := st3.queue ++ [pm'.match_id] })
        else
          (.node pm l r, st3)

/-- Embedding of `create_bracket_rec(parts, s, e)`: recursive halving over
the entrant window `[s, e]`, with sufficient fuel `e - s`. -/
def create_bracket_rec (parts : List Nat) (s e : Nat) (st : GenState) :
    MatchTree × GenState :=
  create_bracket_go parts (e - s) s e st

/-- Embedding of `get_depth(node)`: number of nodes on the longest
root-to-leaf chain. -/
def get_depth : MatchTree → Nat
  | .nil => 0
  | .node _ l r => 1 + max (get_depth l) (get_depth r)

/-- Embedding of `fix_rounds(node, depth, max_d)`: assign
`round = max_d - depth` to every non-leaf node, leaving leaf matches
untouched. -/
def fix_rounds : MatchTree → Int → Int → MatchTree
  | .nil, _, _ => .nil
  | .node m l r, depth, maxd =>
      .node (if m.is_leaf then m else { m with round := maxd - depth })
        (fix_rounds l (depth + 1) maxd) (fix_rounds r (depth + 1) maxd)

/-- The `max_d` argument that `generate_ko` passes to `fix_rounds`:
`get_depth(root) - (1 if get_depth(root) > 1 else 0)`. -/
def normMax (d : Nat) : Int := (d : Int) - (if 1 < d then 1 else 0)

/-- The bracket tree produced for the given entrant ids starting from the
given generation state: build, then normalize rounds. -/
def genTree (parts : List Nat) (st : GenState) : MatchTree :=
  let root := (create_bracket_rec parts 0 (parts.length - 1) st).1
  fix_rounds root 0 (normMax (get_depth root))

/-- Embedding of `generate_ko()`: fails (only) with fewer than two players;
otherwise resets the ready queue, rebuilds the bracket from the registry
(continuing the session's match-id counter and AVL index), normalizes
rounds and switches the mode to Knockout.  The source performs no
already-generated check.  (Result message strings are omitted: the boolean
is the success flag.) -/
def generate_ko (s : Session) : Bool × Session :=
  let n := s.players.length
  if n < 2 then (false, s)
  else
    let st0 : GenState := { next_mid := s.next_mid, avl := s.avl_root, queue := [] }
    let (root, st1) := create_bracket_rec (s.players.map (·.id)) 0 (n - 1) st0
    let root' := fix_rounds root 0 (normMax (get_depth root))
    (true, { s with bracket_root := root', match_queue := st1.queue,
                    next_mid := st1.next_mid, avl_root := st1.avl,
                    mode := "Knockout" })

/-! ## Result reporting (`update_match_generic`) and propagation
(`check_schedule`) -/

/-- The match-record mutation performed by the hit branch of
`update_match_generic`: set the winner and record the per-slot scores
(`s1` goes to slot 1 exactly when slot 1 holds the winner). -/
def applyResult (m : Match) (w : Nat) (s1 s2 : Nat) : Match :=
  { m with winner := some w,
           player1_score := if m.player1 = some w then s1 else s2,
           player2_score := if m.player1 = some w then s2 else s1 }

/-- `loser = m.player2 if m.player1 == winner else m.player1`. -/
def loserOf (m : Match) (w : Nat) : Option Nat :=
  if m.player1 = some w then m.player2 else m.player1

/-- Counter mutation of the winner object: `wins += 1`,
`score_for += s1`, `score_against += s2`. -/
def bumpWinner (ps : List Player) (w : Nat) (s1 s2 : Nat) : List Player :=
  ps.map fun p =>
    if p.id = w then
      { p with wins := p.wins + 1, score_for := p.score_for + s1,
               score_against := p.score_against + s2 }
    else p

/-- Counter mutation of the loser object (skipped when there is no loser):
`losses += 1`, `score_for += s2`, `score_against += s1`. -/
def bumpLoser (ps : List Player) (lo : Option Nat) (s1 s2 : Nat) : List Player :=
  match lo with
  | none => ps
  | some lid =>
      ps.map fun p =>
        if p.id = lid then
          { p with losses := p.losses + 1, score_for := p.score_for + s2,
                   score_against := p.score_against + s1 }
        else p

/-- Embedding of `update_match_generic(node, mid, winner, s1, s2)`: walk the
tree for the first match with the given id; if it is already decided return
success with no mutation; otherwise set the winner, bump the played counter,
bump the winner's and (if present) loser's registry counters and record the
slot scores.  Returns `(found, loser)` together with the mutated tree,
registry and played counter. -/
def update_match_generic (t : MatchTree) (mid : Nat) (w : Nat) (s1 s2 : Nat)
    (ps : List Player) (played : Nat) :
    (Bool × Option Nat) × MatchTree × List Player × Nat :=
  match t with
  | .nil => ((false, none), .nil, ps, played)
  | .node m l r =>
    if m.match_id = mid then
      if m.winner.isSome then ((true, none), .node m l r, ps, played)
      else
        let lo := loserOf m w
        ((true, lo), .node (applyResult m w s1 s2) l r,
         bumpLoser (bumpWinner ps w s1 s2) lo s1 s2, played + 1)
    else
      let ((f, lo), l', ps', played') := update_match_generic l mid w s1 s2 ps played
      if f then ((true, lo), .node m l' r, ps', played')
      else
        let ((f2, lo2), r', ps'', played'') :=
          update_match_generic r mid w s1 s2 ps' played'
        ((f2, lo2), .node m l' r', ps'', played'')

/-- Lookup of the first match with the given id, in the same
node/left/right order as `update_match_generic`'s walk. -/
def matchById : MatchTree → Nat → Option Match
  | .nil, _ => none
  | .node m l r, mid =>
      if m.match_id = mid then some m
      else
        match matchById l mid with
        | some x => some x
        | none => matchById r mid

/-- Embedding of `check_schedule(node)` (the propagator): post-order walk;
at every non-leaf node whose two children both exist and are decided, and
which has no winner and an empty slot 1, fill both slots with the children's
winners and append the node to the ready queue.  Leaf nodes return
immediately without recursing.  `rootWinner c` is `some` exactly when the
Python condition `child and child.match.winner` holds. -/
def check_schedule : MatchTree → List Nat → MatchTree × List Nat
  | .nil, q => (.nil, q)
  | .node m l r, q =>
    if m.is_leaf then (.node m l r, q)
    else
      let (l', q1) := check_schedule l q
      let (r', q2) := check_schedule r q1
      if (l'.rootWinner.isSome && r'.rootWinner.isSome) &&
         (m.winner = none : Bool) && (m.player1 = none : Bool) then
        (.node { m with player1 := l'.rootWinner, player2 := r'.rootWinner } l' r',
         q2 ++ [m.match_id])
      else
        (.node m l' r', q2)

/-- `ReportResult` at the session level: run `update_match_generic` against
the bracket root and store the mutated tree, registry and played counter
back into the session (the ready queue is untouched by reporting). -/
def reportResult (s : Session) (mid : Nat) (w : Nat) (s1 s2 : Nat) :
    (Bool × Option Nat) × Session :=
  let ((f, lo), t, ps, played) :=
    update_match_generic s.bracket_root mid w s1 s2 s.players s.matches_played
  ((f, lo), { s with bracket_root := t, players := ps, matches_played := played })

/-- `Propagate` at the session level: run `check_schedule` against the
bracket root, updating the tree and the ready queue. -/
def propagate (s : Session) : Session :=
  let (t, q) := check_schedule s.bracket_root s.match_queue
  { s with bracket_root := t, match_queue := q }

/-! ## Derived observers and invariants used in the statements -/

namespace MatchTree

/-- Every node of the tree together with its two child subtrees (root
first); membership in this list is equivalent to being reachable by some
path, and it is decidable on concrete trees. -/
def fams : MatchTree → List (Match × MatchTree × MatchTree)
  | .nil => []
  | .node m l r => (m, l, r) :: (fams l ++ fams r)

/-- The root exists and is a non-leaf match. -/
def isInternalRoot : MatchTree → Bool
  | .nil => false
  | .node m _ _ => !m.is_leaf

/-- Round number of the root match (0 for an absent tree). -/
def rootRound : MatchTree → Int
  | .nil => 0
  | .node m _ _ => m.round

end MatchTree

/-- Structural well-formedness of a bracket tree: a leaf match has no
children, an internal match has both. -/
def WF : MatchTree → Bool
  | .nil => true
  | .node m l r =>
      (if m.is_leaf then (l = .nil ∧ r = .nil : Bool) else (l ≠ .nil ∧ r ≠ .nil : Bool)) &&
      WF l && WF r

/-- State invariant of a freshly built bracket: no winners anywhere; a leaf
match has round 1, a filled slot 1 and an empty slot 2 and no children; an
internal match whose two children are leaves carries the two leaf entrants
in its slots; any other internal match has both slots empty and both
children present. -/
def StateOk : MatchTree → Bool
  | .nil => true
  | .node m l r =>
      (m.winner = none : Bool) &&
      (if m.is_leaf then
        (m.round = 1 ∧ m.player2 = none ∧ l = .nil ∧ r = .nil : Bool)
       else
        (l ≠ .nil ∧ r ≠ .nil : Bool) &&
        (if l.isLeafRoot && r.isLeafRoot then
          (m.player1 = l.rootPlayer1 ∧ m.player2 = r.rootPlayer1 : Bool)
         else
          (m.player1 = none ∧ m.player2 = none : Bool))) &&
      StateOk l && StateOk r

/-- The per-match effect of one `update_match_generic(mid, w, s1, s2)` call
on a tree with distinct match ids: the undecided match with the given id
receives the result, all other matches are untouched. -/
def fUpd (mid w s1 s2 : Nat) (m : Match) : Match :=
  if m.match_id = mid ∧ m.winner = none then applyResult m w s1 s2 else m

/-- The per-match effect of a batch of `update_match_generic` calls (first
matching batch entry wins, and a decided match is never touched). -/
def batchF (batch : List (Nat × Nat × Nat × Nat)) (m : Match) : Match :=
  match batch.find? (fun e => e.1 == m.match_id) with
  | some (_, w, s1, s2) => if m.winner = none then applyResult m w s1 s2 else m
  | none => m

/-- Report a batch of results (`(mid, winner, s1, s2)` tuples) one after the
other through `update_match_generic`. -/
def foldBatch (t : MatchTree) (ps : List Player) (played : Nat) :
    List (Nat × Nat × Nat × Nat) → MatchTree × List Player × Nat
  | [] => (t, ps, played)
  | (mid, w, s1, s2) :: rest =>
      let ((_, _), t', ps', played') := update_match_generic t mid w s1 s2 ps played
      foldBatch t' ps' played' rest

/-- The ready queue seeded during bracket construction. -/
def genQueue (parts : List Nat) (st : GenState) : List Nat :=
  (create_bracket_rec parts 0 (parts.length - 1) st).2.queue

/-- Tree and queue after reporting a batch of results and then running one
`check_schedule` pass. -/
def afterBatchProp (parts : List Nat) (st : GenState) (ps : List Player)
    (played : Nat) (batch : List (Nat × Nat × Nat × Nat)) (q : List Nat) :
    MatchTree × List Nat :=
  check_schedule (foldBatch (genTree parts st) ps played batch).1 q

/-! ## Operation sequences for the reachability claims -/

/-- A core operation issued after generation: report a result or run the
propagator. -/
inductive Op where
  | rep (mid w s1 s2 : Nat) : Op
  | prop : Op
  deriving DecidableEq

/-- Apply one operation to the session. -/
def stepOp (s : Session) : Op → Session
  | .rep mid w s1 s2 => (reportResult s mid w s1 s2).2
  | .prop => propagate s

/-- Apply a sequence of operations to the session. -/
def applyOps (s : Session) : List Op → Session
  | [] => s
  | op :: rest => applyOps (stepOp s op) rest

/-- Every match in the tree carrying the given id has both slots filled:
the reported match is playable in the spec's sense. -/
def goodTargetB (t : MatchTree) (mid : Nat) : Bool :=
  t.matchList.all fun m =>
    if m.match_id = mid then m.player1.isSome && m.player2.isSome else true

/-- A sequence of operations is disciplined when every result report
targets a match that is playable (both slots filled) in the session state
at the moment of the report. -/
def disciplinedB : Session → List Op → Bool
  | _, [] => true
  | s, .rep mid w s1 s2 :: rest =>
      goodTargetB s.bracket_root mid &&
      disciplinedB (stepOp s (.rep mid w s1 s2)) rest
  | s, .prop :: rest => disciplinedB (stepOp s .prop) rest

/-- Leaf matches are unfinished and half-empty: no winner and no second
slot.  Preserved by disciplined reports and by propagation. -/
def LeafSafe (t : MatchTree) : Bool :=
  t.matchList.all fun m =>
    if m.is_leaf then (m.winner = none ∧ m.player2 = none : Bool) else true

/-- A tree is blocked when a chain of internal nodes with empty slot 1 and
no winner runs from the root down to a node one of whose children is an
unfinished leaf match: under disciplined reporting no node on the chain can
ever be reported (slot 1 is empty) and no node on the chain can ever be
filled by the propagator (the blocking child's winner stays `none`). -/
inductive Blocked : MatchTree → Prop where
  | baseL (m lm : Match) (ll lr r : MatchTree) :
      m.is_leaf = false → m.winner = none → m.player1 = none →
      lm.is_leaf = true → lm.winner = none → lm.player2 = none →
      Blocked (.node m (.node lm ll lr) r)
  | baseR (m rm : Match) (l rl rr : MatchTree) :
      m.is_leaf = false → m.winner = none → m.player1 = none →
      rm.is_leaf = true → rm.winner = none → rm.player2 = none →
      Blocked (.node m l (.node rm rl rr))
  | stepL (m : Match) (l r : MatchTree) :
      m.is_leaf = false → m.winner = none → m.player1 = none →
      Blocked l → Blocked (.node m l r)
  | stepR (m : Match) (l r : MatchTree) :
      m.is_leaf = false → m.winner = none → m.player1 = none →
      Blocked r → Blocked (.node m l r)

/-- A session whose bracket, registry, played counter and ready queue are
the given ones (fresh defaults elsewhere). -/
def sessionOf (t : MatchTree) (ps : List Player) (played : Nat) (q : List Nat) :
    Session :=
  { bracket_root := t, players := ps, matches_played := played, match_queue := q }

/-! ## Concrete fixtures used by witnesses and counterexamples -/

/-- Fresh generation state: ids start at 100 as in the source session. -/
def genStart : GenState := { next_mid := 100, avl := .nil, queue := [] }

/-- Session with two registered players. -/
def sessionA : Session := { players := [{ id := 1000 }, { id := 1001 }] }

/-- Session after generating the two-player bracket and reporting the final
(match 102, winner 1000, 21:15): its single real match is decided. -/
def sessionB : Session := (reportResult (generate_ko sessionA).2 102 1000 21 15).2

/-- Session with three registered players (so the bracket contains a
registered entrant foreign to the first-round match). -/
def sessionC : Session :=
  { players := [{ id := 1000 }, { id := 1001 }, { id := 1002 }] }

/-! ## AVL lemmas -/

/-- A node whose balance factor already lies in `[-1, 1]` is returned
unchanged by the rebalancing step: all four rotation guards fail. -/
theorem avl_rebal_eq_self (t : AVL) (key : Nat)
    (h1 : avl_bal t ≤ 1) (h2 : -1 ≤ avl_bal t) : avl_rebal t key = t := by
  have hA : ¬ (1 < avl_bal t) := by omega
  have hB : ¬ (avl_bal t < -1) := by omega
  unfold avl_rebal
  rw [if_neg (fun hc => hA hc.1), if_neg (fun hc => hB hc.1),
      if_neg (fun hc => hA hc.1), if_neg (fun hc => hB hc.1)]

/-- C8 (claim theorem): inserting a key already present in a well-formed
balanced index returns the tree entirely unchanged — same structure, same
cached heights, same stored node references. -/
theorem avl_insert_duplicate_noop (t : AVL) (x v : Nat)
    (hok : AvlOk t = true) (hfind : (avl_find t x).isSome = true) :
    avl_ins t x v = t := by
  induction t with
  | nil => simp [avl_find] at hfind
  | node key mp l r ht ihl ihr =>
    simp only [AvlOk, Bool.and_eq_true] at hok
    obtain ⟨hH, hB⟩ := hok
    simp only [avlHeightsOk, Bool.and_eq_true, decide_eq_true_eq] at hH
    obtain ⟨⟨hh, hHl⟩, hHr⟩ := hH
    simp only [avlBalancedOk, Bool.and_eq_true, decide_eq_true_eq] at hB
    obtain ⟨⟨⟨hb1, hb2⟩, hBl⟩, hBr⟩ := hB
    rcases Nat.lt_trichotomy x key with hlt | heq | hgt
    · have hne : key ≠ x := by omega
      have hf : (avl_find l x).isSome = true := by
        rw [avl_find, if_neg hne, if_pos hlt] at hfind
        exact hfind
      have hins : avl_ins l x v = l :=
        ihl (by simp only [AvlOk, Bool.and_eq_true]; exact ⟨hHl, hBl⟩) hf
      rw [avl_ins, if_pos hlt]
      simp only [hins]
      rw [← hh]
      exact avl_rebal_eq_self _ _ hb1 hb2
    · subst heq
      rw [avl_ins, if_neg (lt_irrefl x), if_neg (lt_irrefl x)]
    · have hne : key ≠ x := by omega
      have hf : (avl_find r x).isSome = true := by
        rw [avl_find, if_neg hne, if_neg (by omega : ¬ x < key)] at hfind
        exact hfind
      have hins : avl_ins r x v = r :=
        ihr (by simp only [AvlOk, Bool.and_eq_true]; exact ⟨hHr, hBr⟩) hf
      rw [avl_ins, if_neg (by omega : ¬ x < key), if_pos hgt]
      simp only [hins]
      rw [← hh]
      exact avl_rebal_eq_self _ _ hb1 hb2

/-- Witness for C8: a concrete three-key index built by insertions; inserting
key 2 again with a fresh pointer leaves the index unchanged. -/
theorem avl_insert_duplicate_noop_witness :
    AvlOk (avl_ins (avl_ins (avl_ins .nil 2 20) 1 10) 3 30) = true ∧
    (avl_find (avl_ins (avl_ins (avl_ins .nil 2 20) 1 10) 3 30) 2).isSome = true ∧
    avl_ins (avl_ins (avl_ins (avl_ins .nil 2 20) 1 10) 3 30) 2 99 =
      avl_ins (avl_ins (avl_ins .nil 2 20) 1 10) 3 30 :=
  ⟨by decide, by decide, avl_insert_duplicate_noop _ 2 99 (by decide) (by decide)⟩

/-! ## Lemmas about `update_match_generic` -/

/-- When no match carries the requested id, reporting finds nothing and
mutates nothing. -/
theorem upd_not_found (t : MatchTree) (mid w s1 s2 : Nat) (ps : List Player)
    (pl : Nat) (h : matchById t mid = none) :
    update_match_generic t mid w s1 s2 ps pl = ((false, none), t, ps, pl) := by
  induction t generalizing ps pl with
  | nil => rfl
  | node m l r ihl ihr =>
    rw [matchById] at h
    by_cases hid : m.match_id = mid
    · rw [if_pos hid] at h
      exact absurd h (by simp)
    · rw [if_neg hid] at h
      cases hL : matchById l mid with
      | some x => simp [hL] at h
      | none =>
        simp only [hL] at h
        rw [update_match_generic, if_neg hid]
        simp [ihl ps pl hL, ihr ps pl h]

/-- Reporting a result for an already decided match returns success with no
loser and mutates nothing at all. -/
theorem upd_decided_noop (t : MatchTree) (mid w s1 s2 : Nat) (ps : List Player)
    (pl : Nat) (m : Match) (h : matchById t mid = some m)
    (hw : m.winner.isSome = true) :
    update_match_generic t mid w s1 s2 ps pl = ((true, none), t, ps, pl) := by
  induction t generalizing ps pl with
  | nil => simp [matchById] at h
  | node m0 l r ihl ihr =>
    rw [matchById] at h
    by_cases hid : m0.match_id = mid
    · rw [if_pos hid] at h
      obtain rfl : m0 = m := by simpa using h
      rw [update_match_generic, if_pos hid, if_pos hw]
    · rw [if_neg hid] at h
      cases hL : matchById l mid with
      | some x =>
        simp only [hL] at h
        obtain rfl : x = m := by simpa using h
        rw [update_match_generic, if_neg hid]
        simp [ihl ps pl hL]
      | none =>
        simp only [hL] at h
        rw [update_match_generic, if_neg hid]
        simp [upd_not_found l mid w s1 s2 ps pl hL, ihr ps pl h]

/-- Reporting a result for an undecided match with the requested id:
success, the loser is the slot not holding the winner, the registry is
bumped for winner and loser, the played counter is incremented, and the
match record (still the first one found under the same id) now carries the
result. -/
theorem upd_hit (t : MatchTree) (mid w s1 s2 : Nat) (ps : List Player)
    (pl : Nat) (m : Match) (h : matchById t mid = some m)
    (hw : m.winner = none) :
    ∃ t', update_match_generic t mid w s1 s2 ps pl =
        ((true, loserOf m w), t',
         bumpLoser (bumpWinner ps w s1 s2) (loserOf m w) s1 s2, pl + 1) ∧
      matchById t' mid = some (applyResult m w s1 s2) := by
  induction t generalizing ps pl with
  | nil => simp [matchById] at h
  | node m0 l r ihl ihr =>
    rw [matchById] at h
    by_cases hid : m0.match_id = mid
    · rw [if_pos hid] at h
      obtain rfl : m0 = m := by simpa using h
      refine ⟨.node (applyResult m0 w s1 s2) l r, ?_, ?_⟩
      · rw [update_match_generic, if_pos hid, if_neg (by simp [hw])]
      · rw [matchById, if_pos (by simpa [applyResult] using hid)]
    · rw [if_neg hid] at h
      cases hL : matchById l mid with
      | some x =>
        simp only [hL] at h
        obtain rfl : x = m := by simpa using h
        obtain ⟨l', hupd, hfind⟩ := ihl ps pl hL
        refine ⟨.node m0 l' r, ?_, ?_⟩
        · rw [update_match_generic, if_neg hid]
          simp [hupd]
        · rw [matchById, if_neg hid]
          simp [hfind]
      | none =>
        simp only [hL] at h
        obtain ⟨r', hupd, hfind⟩ := ihr ps pl h
        refine ⟨.node m0 l r', ?_, ?_⟩
        · rw [update_match_generic, if_neg hid]
          simp [upd_not_found l mid w s1 s2 ps pl hL, hupd]
        · rw [matchById, if_neg hid]
          simp [hL, hfind]

/-- Session-level consequence of `upd_not_found`: a report against an absent
id leaves the session untouched. -/
theorem report_not_found_eq (s : Session) (mid w s1 s2 : Nat)
    (h : matchById s.bracket_root mid = none) :
    reportResult s mid w s1 s2 = ((false, none), s) := by
  unfold reportResult
  rw [upd_not_found _ _ _ _ _ _ _ h]

/-- Session-level consequence of `upd_decided_noop`: a report against a
decided match returns success and leaves the session untouched. -/
theorem report_decided_eq (s : Session) (mid w s1 s2 : Nat) (m : Match)
    (hm : matchById s.bracket_root mid = some m) (hw : m.winner.isSome = true) :
    reportResult s mid w s1 s2 = ((true, none), s) := by
  unfold reportResult
  rw [upd_decided_noop _ _ _ _ _ _ _ m hm hw]

/-- Session-level consequence of `upd_hit`: a report against an undecided
match stores the mutated tree, registry and counter. -/
theorem report_hit_eq (s : Session) (mid w s1 s2 : Nat) (m : Match)
    (hm : matchById s.bracket_root mid = some m) (hw : m.winner = none) :
    ∃ t', reportResult s mid w s1 s2 =
        ((true, loserOf m w),
         { s with bracket_root := t',
                  players := bumpLoser (bumpWinner s.players w s1 s2) (loserOf m w) s1 s2,
                  matches_played := s.matches_played + 1 }) ∧
      matchById t' mid = some (applyResult m w s1 s2) := by
  obtain ⟨t', hupd, hfind⟩ :=
    upd_hit s.bracket_root mid w s1 s2 s.players s.matches_played m hm hw
  refine ⟨t', ?_, hfind⟩
  unfold reportResult
  rw [hupd]

/-- C4 (claim theorem): a match whose winner is already set absorbs any
further report on its id: the call reports success with no loser and the
whole session — bracket tree (winner and scores), registry counters, played
counter and ready queue — is unchanged; and reporting the same result twice
always leaves the state identical to reporting it once. -/
theorem report_decided_noop_and_idempotent (s : Session) (mid w s1 s2 : Nat) :
    (∀ m, matchById s.bracket_root mid = some m → m.winner.isSome = true →
      reportResult s mid w s1 s2 = ((true, none), s)) ∧
    (reportResult (reportResult s mid w s1 s2).2 mid w s1 s2).2 =
      (reportResult s mid w s1 s2).2 := by
  refine ⟨fun m hm hw => report_decided_eq s mid w s1 s2 m hm hw, ?_⟩
  cases hfind : matchById s.bracket_root mid with
  | none =>
    have h1 := report_not_found_eq s mid w s1 s2 hfind
    rw [h1]
    rw [show ((false, none), s).2 = s from rfl, h1]
  | some m =>
    cases hw : m.winner with
    | some x =>
      have h1 := report_decided_eq s mid w s1 s2 m hfind (by simp [hw])
      rw [h1]
      rw [show ((true, none), s).2 = s from rfl, h1]
    | none =>
      obtain ⟨t', h1, hfind'⟩ := report_hit_eq s mid w s1 s2 m hfind hw
      have h2 :=
        report_decided_eq
          { s with bracket_root := t',
                   players := bumpLoser (bumpWinner s.players w s1 s2) (loserOf m w) s1 s2,
                   matches_played := s.matches_played + 1 }
          mid w s1 s2 (applyResult m w s1 s2) hfind' (by simp [applyResult])
      rw [h1]
      show (reportResult
          { s with bracket_root := t',
                   players := bumpLoser (bumpWinner s.players w s1 s2) (loserOf m w) s1 s2,
                   matches_played := s.matches_played + 1 } mid w s1 s2).2 =
        { s with bracket_root := t',
                 players := bumpLoser (bumpWinner s.players w s1 s2) (loserOf m w) s1 s2,
                 matches_played := s.matches_played + 1 }
      rw [h2]

/-- Unfolding lemma for `bumpWinner` on a cons cell. -/
theorem bumpWinner_cons (p : Player) (ps : List Player) (w s1 s2 : Nat) :
    bumpWinner (p :: ps) w s1 s2 =
      (if p.id = w then
        { p with wins := p.wins + 1, score_for := p.score_for + s1,
                 score_against := p.score_against + s2 }
       else p) :: bumpWinner ps w s1 s2 := by
  simp [bumpWinner]

/-- Unfolding lemma for `bumpLoser` on a cons cell. -/
theorem bumpLoser_cons (p : Player) (ps : List Player) (lid s1 s2 : Nat) :
    bumpLoser (p :: ps) (some lid) s1 s2 =
      (if p.id = lid then
        { p with losses := p.losses + 1, score_for := p.score_for + s2,
                 score_against := p.score_against + s1 }
       else p) :: bumpLoser ps (some lid) s1 s2 := by
  simp [bumpLoser]

/-- Looking up the winner in the registry after `bumpWinner`: wins up one,
`score_for` up by `s1`, `score_against` up by `s2`. -/
theorem find_bumpWinner (ps : List Player) (w s1 s2 : Nat) (pw : Player)
    (h : ps.find? (fun p => p.id == w) = some pw) :
    (bumpWinner ps w s1 s2).find? (fun p => p.id == w) =
      some { pw with wins := pw.wins + 1, score_for := pw.score_for + s1,
                     score_against := pw.score_against + s2 } := by
  induction ps with
  | nil => simp at h
  | cons p ps ih =>
    rw [bumpWinner_cons]
    by_cases hp : p.id = w
    · rw [List.find?_cons_of_pos _ (by simpa using hp)] at h
      obtain rfl : p = pw := by simpa using h
      rw [if_pos hp, List.find?_cons_of_pos _ (by simpa using hp)]
    · rw [List.find?_cons_of_neg _ (by simpa using hp)] at h
      rw [if_neg hp, List.find?_cons_of_neg _ (by simpa using hp)]
      exact ih h

/-- `bumpLoser` for a loser other than `w` does not disturb the registry
lookup of `w`. -/
theorem find_bumpLoser_of_ne (ps : List Player) (lo : Option Nat)
    (s1 s2 w : Nat) (hne : lo ≠ some w) :
    (bumpLoser ps lo s1 s2).find? (fun p => p.id == w) =
      ps.find? (fun p => p.id == w) := by
  cases lo with
  | none => rfl
  | some lid =>
    have hlw : lid ≠ w := fun hh => hne (by rw [hh])
    induction ps with
    | nil => rfl
    | cons p ps ih =>
      rw [bumpLoser_cons]
      by_cases hp : p.id = w
      · have hpl : ¬ p.id = lid := by rw [hp]; exact fun hh => hlw hh.symm
        rw [if_neg hpl, List.find?_cons_of_pos _ (by simpa using hp),
            List.find?_cons_of_pos _ (by simpa using hp)]
      · by_cases hq : p.id = lid
        · rw [if_pos hq, List.find?_cons_of_neg _ (by simpa using hp),
              List.find?_cons_of_neg _ (by simpa using hp)]
          exact ih
        · rw [if_neg hq, List.find?_cons_of_neg _ (by simpa using hp),
              List.find?_cons_of_neg _ (by simpa using hp)]
          exact ih

/-- C10 (claim theorem): `score1` is always credited to the supplied winner
(`score_for += score1`, `score_against += score2`, `wins += 1`), regardless
of which slot the winner occupies; and when slot 1 does not hold the winner,
the recorded per-slot scores are swapped (`player1_score = score2`,
`player2_score = score1`). -/
theorem report_scores_winner_oriented (t : MatchTree) (mid w s1 s2 : Nat)
    (ps : List Player) (pl : Nat) (m : Match) (pw : Player)
    (hfind : matchById t mid = some m) (hund : m.winner = none)
    (hpw : ps.find? (fun p => p.id == w) = some pw)
    (hlo : loserOf m w ≠ some w) :
    ((update_match_generic t mid w s1 s2 ps pl).2.2.1.find? (fun p => p.id == w) =
      some { pw with wins := pw.wins + 1, score_for := pw.score_for + s1,
                     score_against := pw.score_against + s2 }) ∧
    (m.player1 ≠ some w →
      matchById (update_match_generic t mid w s1 s2 ps pl).2.1 mid =
        some { m with winner := some w, player1_score := s2,
                      player2_score := s1 }) := by
  obtain ⟨t', hupd, hfind'⟩ := upd_hit t mid w s1 s2 ps pl m hfind hund
  rw [hupd]
  constructor
  · show (bumpLoser (bumpWinner ps w s1 s2) (loserOf m w) s1 s2).find? _ = _
    rw [find_bumpLoser_of_ne _ _ _ _ _ hlo]
    exact find_bumpWinner ps w s1 s2 pw hpw
  · intro h1
    show matchById t' mid = _
    rw [hfind']
    congr 1
    simp [applyResult, h1]

/-- Witness for C4: re-reporting the decided final of a concrete two-player
tournament succeeds and changes nothing. -/
theorem report_decided_noop_and_idempotent_witness :
    reportResult sessionB 102 1000 21 15 = ((true, none), sessionB) :=
  (report_decided_noop_and_idempotent sessionB 102 1000 21 15).1
    { match_id := 102, player1 := some 1000, player2 := some 1001,
      winner := some 1000, round := 1, is_from_losers := false, is_leaf := false,
      player1_score := 21, player2_score := 15 }
    (by decide) (by decide)

/-- Witness for C10: on the two-player bracket, reporting match 102 with the
slot-2 entrant 1001 as winner (7:4) records the slot scores swapped:
`player1_score = 4`, `player2_score = 7`. -/
theorem report_scores_winner_oriented_witness :
    matchById (update_match_generic (generate_ko sessionA).2.bracket_root
        102 1001 7 4 sessionA.players 0).2.1 102 =
      some { match_id := 102, player1 := some 1000, player2 := some 1001,
             winner := some 1001, round := 1, is_from_losers := false,
             is_leaf := false, player1_score := 4, player2_score := 7 } :=
  (report_scores_winner_oriented _ 102 1001 7 4 _ 0
      { match_id := 102, player1 := some 1000, player2 := some 1001, round := 1 }
      { id := 1001 } (by decide) rfl (by decide) (by decide)).2 (by decide)

/-- C1 (counterexample): in the three-player tournament, reporting match 102
(slots 1000 and 1001) with the registered but foreign winner 1002 does not
fail: it returns success with loser 1000, bumps the played counter, stores
winner 1002 in the match and mutates the registry counters of 1000 and
1002. -/
theorem report_invalid_winner_counterexample :
    (reportResult (generate_ko sessionC).2 102 1002 5 3).1 = (true, some 1000) ∧
    (reportResult (generate_ko sessionC).2 102 1002 5 3).2.matches_played = 1 ∧
    matchById (reportResult (generate_ko sessionC).2 102 1002 5 3).2.bracket_root
        102 =
      some { match_id := 102, player1 := some 1000, player2 := some 1001,
             winner := some 1002, round := 1, is_from_losers := false,
             is_leaf := false, player1_score := 3, player2_score := 5 } ∧
    (reportResult (generate_ko sessionC).2 102 1002 5 3).2.players =
      [{ id := 1000, losses := 1, score_for := 3, score_against := 5 },
       { id := 1001 }, { id := 1002, wins := 1, score_for := 5, score_against := 3 }] := by
  decide

/-- C1 (amended claim theorem): `update_match_generic` performs no
invalid-winner guard.  When the supplied winner sits in neither slot of the
undecided target match, the operation still succeeds: it returns the slot-1
entrant as the loser, stores the supplied winner, records the slot scores as
if slot 2 had won (`player1_score = score2`, `player2_score = score1`),
bumps the supplied winner's and the slot-1 entrant's counters and increments
the played counter. -/
theorem report_invalid_winner_accepted (t : MatchTree) (mid w s1 s2 : Nat)
    (ps : List Player) (pl : Nat) (m : Match)
    (hfind : matchById t mid = some m) (hund : m.winner = none)
    (h1 : m.player1 ≠ some w) (h2 : m.player2 ≠ some w) :
    ∃ t', update_match_generic t mid w s1 s2 ps pl =
        ((true, m.player1), t',
         bumpLoser (bumpWinner ps w s1 s2) m.player1 s1 s2, pl + 1) ∧
      matchById t' mid =
        some { m with winner := some w, player1_score := s2,
                      player2_score := s1 } := by
  obtain ⟨t', hupd, hfind'⟩ := upd_hit t mid w s1 s2 ps pl m hfind hund
  have hlo : loserOf m w = m.player1 := by simp [loserOf, h1]
  refine ⟨t', ?_, ?_⟩
  · rw [hupd, hlo]
  · rw [hfind']
    congr 1
    simp [applyResult, h1]

/-- Witness for the amended C1: the counterexample input satisfies the
amended description. -/
theorem report_invalid_winner_accepted_witness :
    ∃ t', update_match_generic (generate_ko sessionC).2.bracket_root
        102 1002 5 3 sessionC.players 0 =
        ((true, some 1000), t',
         bumpLoser (bumpWinner sessionC.players 1002 5 3) (some 1000) 5 3, 1) ∧
      matchById t' 102 =
        some { match_id := 102, player1 := some 1000, player2 := some 1001,
               winner := some 1002, round := 1, is_from_losers := false,
               is_leaf := false, player1_score := 3, player2_score := 5 } :=
  report_invalid_winner_accepted _ 102 1002 5 3 _ 0
    { match_id := 102, player1 := some 1000, player2 := some 1001, round := 1 }
    (by decide) rfl (by decide) (by decide)

/-! ## Structural facts about bracket construction -/

/-- A tree of positive depth is present. -/
theorem ne_nil_of_depth (t : MatchTree) (h : 1 ≤ get_depth t) : t ≠ .nil := by
  cases t with
  | nil => simp [get_depth] at h
  | node m l r => simp

/-- Main induction on the bracket builder: with sufficient fuel over the
window `[s, e]`, the builder allocates exactly the ids
`[next_mid, next_mid + 2(e-s)+1)` (all distinct), produces a tree satisfying
the freshly-built state invariant, with exactly `e-s+1` leaf matches and
`e-s` internal matches, and of depth at least 2 for two-entrant windows and
at least 3 for three-entrant windows; the root is a leaf match exactly for a
singleton window. -/
theorem build_facts (parts : List Nat) :
    ∀ (fuel s e : Nat) (st : GenState), s ≤ e → e ≤ s + fuel →
      ((create_bracket_go parts fuel s e st).2.next_mid =
        st.next_mid + (2 * (e - s) + 1)) ∧
      (∀ i ∈ (create_bracket_go parts fuel s e st).1.idList,
        st.next_mid ≤ i ∧ i < (create_bracket_go parts fuel s e st).2.next_mid) ∧
      (create_bracket_go parts fuel s e st).1.idList.Nodup ∧
      StateOk (create_bracket_go parts fuel s e st).1 = true ∧
      (create_bracket_go parts fuel s e st).1.leafCount = (e - s) + 1 ∧
      (create_bracket_go parts fuel s e st).1.internalCount = e - s ∧
      1 ≤ get_depth (create_bracket_go parts fuel s e st).1 ∧
      (s < e → 2 ≤ get_depth (create_bracket_go parts fuel s e st).1) ∧
      (s + 2 ≤ e → 3 ≤ get_depth (create_bracket_go parts fuel s e st).1) ∧
      ((create_bracket_go parts fuel s e st).1.isLeafRoot = decide (e ≤ s)) ∧
      get_depth (create_bracket_go parts fuel s e st).1 ≤ (e - s) + 1 := by
  intro fuel
  induction fuel with
  | zero =>
    intro s e st hse hfuel
    have he : e ≤ s := by omega
    simp only [create_bracket_go, if_pos he, create_match_node]
    refine ⟨by simp; omega, ?_, ?_, ?_, ?_, ?_, ?_, ?_, ?_, ?_, ?_⟩
    · intro i hi
      simp [MatchTree.idList] at hi
      omega
    · simp [MatchTree.idList]
    · simp [StateOk]
    · simp [MatchTree.leafCount]; omega
    · simp [MatchTree.internalCount]; omega
    · simp [get_depth]
    · intro h; omega
    · intro h; omega
    · simp [MatchTree.isLeafRoot, he]
    · simp [get_depth]
  | succ fuel ih =>
    intro s e st hse hfuel
    by_cases he : e ≤ s
    · simp only [create_bracket_go, if_pos he, create_match_node]
      refine ⟨by simp; omega, ?_, ?_, ?_, ?_, ?_, ?_, ?_, ?_, ?_, ?_⟩
      · intro i hi
        simp [MatchTree.idList] at hi
        omega
      · simp [MatchTree.idList]
      · simp [StateOk]
      · simp [MatchTree.leafCount]; omega
      · simp [MatchTree.internalCount]; omega
      · simp [get_depth]
      · intro h; omega
      · intro h; omega
      · simp [MatchTree.isLeafRoot, he]
      · simp [get_depth]
    · have hlt : s < e := by omega
      have hmid1 : s ≤ (s + e) / 2 := by omega
      have hmid2 : (s + e) / 2 < e := by omega
      have hmid3 : (s + e) / 2 ≤ s + fuel := by omega
      have hmid4 : e ≤ ((s + e) / 2 + 1) + fuel := by omega
      obtain ⟨ihL1, ihL2, ihL3, ihL4, ihL5, ihL6, ihL7, ihL8, ihL9, ihL10, ihL11⟩ :=
        ih s ((s + e) / 2) st hmid1 hmid3
      obtain ⟨ihR1, ihR2, ihR3, ihR4, ihR5, ihR6, ihR7, ihR8, ihR9, ihR10, ihR11⟩ :=
        ih ((s + e) / 2 + 1) e
          (create_bracket_go parts fuel s ((s + e) / 2) st).2 (by omega) hmid4
      simp only [create_bracket_go, if_neg he, create_match_node]
      set L := create_bracket_go parts fuel s ((s + e) / 2) st with hLdef
      set R := create_bracket_go parts fuel ((s + e) / 2 + 1) e L.2 with hRdef
      have hLnil : L.1 ≠ .nil := ne_nil_of_depth _ ihL7
      have hRnil : R.1 ≠ .nil := ne_nil_of_depth _ ihR7
      have hdisj :
          ∀ hh : ¬ (L.1.isLeafRoot && R.1.isLeafRoot) = true,
            ¬ (L.1.isLeafRoot = true ∧ R.1.isLeafRoot = true) := by
        intro hh
        rw [Bool.and_eq_true] at hh
        exact hh
      by_cases hbl : (L.1.isLeafRoot && R.1.isLeafRoot) = true
      · rw [if_pos hbl]
        refine ⟨?_, ?_, ?_, ?_, ?_, ?_, ?_, ?_, ?_, ?_, ?_⟩
        · show R.2.next_mid + 1 = st.next_mid + (2 * (e - s) + 1)
          omega
        · intro i hi
          simp [MatchTree.idList] at hi
          have hb : st.next_mid ≤ i ∧ i < R.2.next_mid + 1 := by
            rcases hi with hi | hi | hi
            · subst hi; omega
            · have := ihL2 i hi; omega
            · have := ihR2 i hi; omega
          exact hb
        · simp only [MatchTree.idList, List.nodup_cons, List.mem_append,
            List.nodup_append]
          refine ⟨?_, ihL3, ihR3, ?_⟩
          · rintro (hi | hi)
            · have := ihL2 _ hi
              simp only at this
              omega
            · have := ihR2 _ hi
              simp only at this
              omega
          · intro i hiL hiR
            have h1 := ihL2 _ hiL
            have h2 := ihR2 _ hiR
            omega
        · simp only [StateOk, Bool.and_eq_true, decide_eq_true_eq]
          refine ⟨⟨⟨by simp, ?_⟩, ihL4⟩, ihR4⟩
          rw [Bool.and_eq_true] at hbl
          rw [if_neg (by simp), if_pos hbl]
          simp [hLnil, hRnil]
        · simp [MatchTree.leafCount]
          omega
        · simp [MatchTree.internalCount]
          omega
        · simp [get_depth]
        · intro _
          simp [get_depth]
          omega
        · intro h3
          have hs2 : s < (s + e) / 2 := by omega
          have := ihL8 hs2
          simp [get_depth]
          omega
        · simp [MatchTree.isLeafRoot, he]
        · simp [get_depth]
          omega
      · rw [if_neg hbl]
        refine ⟨?_, ?_, ?_, ?_, ?_, ?_, ?_, ?_, ?_, ?_, ?_⟩
        · show R.2.next_mid + 1 = st.next_mid + (2 * (e - s) + 1)
          omega
        · intro i hi
          simp [MatchTree.idList] at hi
          have hb : st.next_mid ≤ i ∧ i < R.2.next_mid + 1 := by
            rcases hi with hi | hi | hi
            · subst hi; omega
            · have := ihL2 i hi; omega
            · have := ihR2 i hi; omega
          exact hb
        · simp only [MatchTree.idList, List.nodup_cons, List.mem_append,
            List.nodup_append]
          refine ⟨?_, ihL3, ihR3, ?_⟩
          · rintro (hi | hi)
            · have := ihL2 _ hi
              simp only at this
              omega
            · have := ihR2 _ hi
              simp only at this
              omega
          · intro i hiL hiR
            have h1 := ihL2 _ hiL
            have h2 := ihR2 _ hiR
            omega
        · simp only [StateOk, Bool.and_eq_true, decide_eq_true_eq]
          refine ⟨⟨⟨by simp, ?_⟩, ihL4⟩, ihR4⟩
          rw [if_neg (by simp), if_neg (hdisj hbl)]
          simp [hLnil, hRnil]
        · simp [MatchTree.leafCount]
          omega
        · simp [MatchTree.internalCount]
          omega
        · simp [get_depth]
        · intro _
          simp [get_depth]
          omega
        · intro h3
          have hs2 : s < (s + e) / 2 := by omega
          have := ihL8 hs2
          simp [get_depth]
          omega
        · simp [MatchTree.isLeafRoot, he]
        · simp [get_depth]
          omega

/-! ## Lemmas about `fix_rounds` and tree paths -/

/-- `fix_rounds` on a node, unfolded. -/
theorem fix_rounds_node (m : Match) (l r : MatchTree) (d maxd : Int) :
    fix_rounds (.node m l r) d maxd =
      .node (if m.is_leaf then m else { m with round := maxd - d })
        (fix_rounds l (d + 1) maxd) (fix_rounds r (d + 1) maxd) := rfl

/-- `fix_rounds` preserves presence. -/
theorem fix_ne_nil (t : MatchTree) (d maxd : Int) (h : t ≠ .nil) :
    fix_rounds t d maxd ≠ .nil := by
  cases t with
  | nil => exact absurd rfl h
  | node m l r => simp [fix_rounds_node]

/-- `fix_rounds` preserves the root leaf flag. -/
theorem isLeafRoot_fix (t : MatchTree) (d maxd : Int) :
    (fix_rounds t d maxd).isLeafRoot = t.isLeafRoot := by
  cases t with
  | nil => rfl
  | node m l r =>
    by_cases hm : m.is_leaf <;> simp [fix_rounds_node, MatchTree.isLeafRoot, hm]

/-- `fix_rounds` preserves the root's slot 1. -/
theorem rootPlayer1_fix (t : MatchTree) (d maxd : Int) :
    (fix_rounds t d maxd).rootPlayer1 = t.rootPlayer1 := by
  cases t with
  | nil => rfl
  | node m l r =>
    by_cases hm : m.is_leaf <;> simp [fix_rounds_node, MatchTree.rootPlayer1, hm]

/-- `fix_rounds` preserves the depth of the tree. -/
theorem get_depth_fix (t : MatchTree) (d maxd : Int) :
    get_depth (fix_rounds t d maxd) = get_depth t := by
  induction t generalizing d with
  | nil => rfl
  | node m l r ihl ihr => simp [fix_rounds_node, get_depth, ihl, ihr]

/-- `fix_rounds` preserves the list of match ids. -/
theorem idList_fix (t : MatchTree) (d maxd : Int) :
    (fix_rounds t d maxd).idList = t.idList := by
  induction t generalizing d with
  | nil => rfl
  | node m l r ihl ihr =>
    by_cases hm : m.is_leaf <;>
      simp [fix_rounds_node, MatchTree.idList, ihl, ihr, hm]

/-- `fix_rounds` preserves the leaf count. -/
theorem leafCount_fix (t : MatchTree) (d maxd : Int) :
    (fix_rounds t d maxd).leafCount = t.leafCount := by
  induction t generalizing d with
  | nil => rfl
  | node m l r ihl ihr =>
    by_cases hm : m.is_leaf <;>
      simp [fix_rounds_node, MatchTree.leafCount, ihl, ihr, hm]

/-- `fix_rounds` preserves the internal count. -/
theorem internalCount_fix (t : MatchTree) (d maxd : Int) :
    (fix_rounds t d maxd).internalCount = t.internalCount := by
  induction t generalizing d with
  | nil => rfl
  | node m l r ihl ihr =>
    by_cases hm : m.is_leaf <;>
      simp [fix_rounds_node, MatchTree.internalCount, ihl, ihr, hm]

/-- `fix_rounds` preserves the freshly-built state invariant (it only
rewrites rounds of internal matches). -/
theorem stateOk_fix (t : MatchTree) (d maxd : Int) (h : StateOk t = true) :
    StateOk (fix_rounds t d maxd) = true := by
  induction t generalizing d with
  | nil => rfl
  | node m l r ihl ihr =>
    simp only [StateOk, Bool.and_eq_true, decide_eq_true_eq] at h
    obtain ⟨⟨⟨hw, hmid⟩, hl⟩, hr⟩ := h
    by_cases hm : m.is_leaf
    · rw [if_pos hm] at hmid
      simp only [decide_eq_true_eq] at hmid
      obtain ⟨hr1, hp2, hlnil, hrnil⟩ := hmid
      subst hlnil; subst hrnil
      rw [fix_rounds_node, if_pos hm]
      simp only [StateOk, Bool.and_eq_true, decide_eq_true_eq]
      exact ⟨⟨⟨hw, by rw [if_pos hm]; simp [hr1, hp2, fix_rounds]⟩, trivial⟩, trivial⟩
    · rw [if_neg hm] at hmid
      rw [fix_rounds_node, if_neg hm]
      simp only [StateOk, Bool.and_eq_true, decide_eq_true_eq]
      refine ⟨⟨⟨by simpa using hw, ?_⟩, ihl _ hl⟩, ihr _ hr⟩
      rw [if_neg (by simpa using hm)]
      simp only [Bool.and_eq_true, decide_eq_true_eq] at hmid ⊢
      obtain ⟨⟨hlnil, hrnil⟩, hrest⟩ := hmid
      refine ⟨⟨fix_ne_nil l _ _ hlnil, fix_ne_nil r _ _ hrnil⟩, ?_⟩
      rw [isLeafRoot_fix, isLeafRoot_fix, rootPlayer1_fix, rootPlayer1_fix]
      simpa using hrest

/-- Subtrees of `fix_rounds` are the `fix_rounds` of subtrees, at the
depth given by the path length. -/
theorem sub_fix (t : MatchTree) (d maxd : Int) (p : List Dir) :
    sub (fix_rounds t d maxd) p =
      (sub t p).map (fun t' => fix_rounds t' (d + p.length) maxd) := by
  induction t generalizing p d with
  | nil =>
    cases p with
    | nil => simp [fix_rounds, sub]
    | cons dir p' => simp [fix_rounds, sub]
  | node m l r ihl ihr =>
    cases p with
    | nil => simp [sub, fix_rounds_node]
    | cons dir p' =>
      cases dir with
      | L =>
        have step1 : sub (fix_rounds (MatchTree.node m l r) d maxd) (Dir.L :: p') =
            sub (fix_rounds l (d + 1) maxd) p' := rfl
        have step2 : sub (MatchTree.node m l r) (Dir.L :: p') = sub l p' := rfl
        rw [step1, step2, ihl]
        congr 1
        funext t'
        congr 1
        push_cast [List.length_cons]
        ring
      | R =>
        have step1 : sub (fix_rounds (MatchTree.node m l r) d maxd) (Dir.R :: p') =
            sub (fix_rounds r (d + 1) maxd) p' := rfl
        have step2 : sub (MatchTree.node m l r) (Dir.R :: p') = sub r p' := rfl
        rw [step1, step2, ihr]
        congr 1
        funext t'
        congr 1
        push_cast [List.length_cons]
        ring

/-- The state invariant restricts to subtrees. -/
theorem stateOk_sub (t : MatchTree) (p : List Dir) (t' : MatchTree)
    (h : StateOk t = true) (hs : sub t p = some t') : StateOk t' = true := by
  induction t generalizing p with
  | nil =>
    cases p with
    | nil => cases hs; exact h
    | cons dir p' => simp [sub] at hs
  | node m l r ihl ihr =>
    cases p with
    | nil => cases hs; exact h
    | cons dir p' =>
      simp only [StateOk, Bool.and_eq_true] at h
      obtain ⟨⟨⟨_, _⟩, hl⟩, hr⟩ := h
      cases dir with
      | L => exact ihl p' hl hs
      | R => exact ihr p' hr hs

/-- A path one step longer reaches the left child. -/
theorem sub_snoc_left (t : MatchTree) (p : List Dir) (m : Match)
    (l r : MatchTree) (h : sub t p = some (.node m l r)) :
    sub t (p ++ [Dir.L]) = some l := by
  induction t generalizing p with
  | nil =>
    cases p with
    | nil => cases h
    | cons dir p' => simp [sub] at h
  | node m0 l0 r0 ihl ihr =>
    cases p with
    | nil => cases h; simp [sub]
    | cons dir p' =>
      cases dir with
      | L => exact ihl p' h
      | R => exact ihr p' h

/-- A path one step longer reaches the right child. -/
theorem sub_snoc_right (t : MatchTree) (p : List Dir) (m : Match)
    (l r : MatchTree) (h : sub t p = some (.node m l r)) :
    sub t (p ++ [Dir.R]) = some r := by
  induction t generalizing p with
  | nil =>
    cases p with
    | nil => cases h
    | cons dir p' => simp [sub] at h
  | node m0 l0 r0 ihl ihr =>
    cases p with
    | nil => cases h; simp [sub]
    | cons dir p' =>
      cases dir with
      | L => exact ihl p' h
      | R => exact ihr p' h

/-- The root id of a subtree occurs among the tree's ids. -/
theorem sub_id_mem (t : MatchTree) (p : List Dir) (m : Match) (l r : MatchTree)
    (h : sub t p = some (.node m l r)) : m.match_id ∈ t.idList := by
  induction t generalizing p with
  | nil =>
    cases p with
    | nil => cases h
    | cons dir p' => simp [sub] at h
  | node m0 l0 r0 ihl ihr =>
    cases p with
    | nil => cases h; simp [MatchTree.idList]
    | cons dir p' =>
      cases dir with
      | L => simp [MatchTree.idList]; exact Or.inr (Or.inl (ihl p' h))
      | R => simp [MatchTree.idList]; exact Or.inr (Or.inr (ihr p' h))

/-- With distinct ids, nodes are identified by their match id: two paths to
the same id coincide. -/
theorem sub_nodup_path_unique (t : MatchTree) (hnd : t.idList.Nodup) :
    ∀ (p₁ p₂ : List Dir) (m₁ m₂ : Match) (l₁ r₁ l₂ r₂ : MatchTree),
      sub t p₁ = some (.node m₁ l₁ r₁) → sub t p₂ = some (.node m₂ l₂ r₂) →
      m₁.match_id = m₂.match_id → p₁ = p₂ := by
  induction t with
  | nil =>
    intro p₁ p₂ m₁ m₂ l₁ r₁ l₂ r₂ h1 h2 _
    cases p₁ with
    | nil => cases h1
    | cons dir p' => simp [sub] at h1
  | node m0 l0 r0 ihl ihr =>
    simp only [MatchTree.idList, List.nodup_cons, List.nodup_append,
      List.mem_append] at hnd
    obtain ⟨hnotin, hndl, hndr, hdisj⟩ := hnd
    intro p₁ p₂ m₁ m₂ l₁ r₁ l₂ r₂ h1 h2 hid
    cases p₁ with
    | nil =>
      cases h1
      cases p₂ with
      | nil => rfl
      | cons dir p' =>
        cases dir with
        | L =>
          have := sub_id_mem l0 p' m₂ l₂ r₂ h2
          rw [hid] at hnotin
          exact absurd (Or.inl this) hnotin
        | R =>
          have := sub_id_mem r0 p' m₂ l₂ r₂ h2
          rw [hid] at hnotin
          exact absurd (Or.inr this) hnotin
    | cons dir p' =>
      cases p₂ with
      | nil =>
        cases h2
        cases dir with
        | L =>
          have := sub_id_mem l0 p' m₁ l₁ r₁ h1
          rw [← hid] at hnotin
          exact absurd (Or.inl this) hnotin
        | R =>
          have := sub_id_mem r0 p' m₁ l₁ r₁ h1
          rw [← hid] at hnotin
          exact absurd (Or.inr this) hnotin
      | cons dir₂ p₂' =>
        cases dir with
        | L =>
          cases dir₂ with
          | L => rw [ihl hndl p' p₂' m₁ m₂ l₁ r₁ l₂ r₂ h1 h2 hid]
          | R =>
            have hm1 := sub_id_mem l0 p' m₁ l₁ r₁ h1
            have hm2 := sub_id_mem r0 p₂' m₂ l₂ r₂ h2
            rw [hid] at hm1
            exact (hdisj hm1 hm2).elim
        | R =>
          cases dir₂ with
          | L =>
            have hm1 := sub_id_mem r0 p' m₁ l₁ r₁ h1
            have hm2 := sub_id_mem l0 p₂' m₂ l₂ r₂ h2
            rw [hid] at hm1
            exact (hdisj hm2 hm1).elim
          | R => rw [ihr hndr p' p₂' m₁ m₂ l₁ r₁ l₂ r₂ h1 h2 hid]

/-- Every subtree position is a member of the family list. -/
theorem sub_mem_fams (t : MatchTree) (p : List Dir) (m : Match)
    (l r : MatchTree) (h : sub t p = some (.node m l r)) :
    (m, l, r) ∈ t.fams := by
  induction t generalizing p with
  | nil =>
    cases p with
    | nil => cases h
    | cons dir p' => simp [sub] at h
  | node m0 l0 r0 ihl ihr =>
    cases p with
    | nil => cases h; simp [MatchTree.fams]
    | cons dir p' =>
      cases dir with
      | L => simp [MatchTree.fams]; exact Or.inr (Or.inl (ihl p' h))
      | R => simp [MatchTree.fams]; exact Or.inr (Or.inr (ihr p' h))

/-- Every family-list member is reachable along some path. -/
theorem fams_mem_sub (t : MatchTree) (m : Match) (l r : MatchTree)
    (h : (m, l, r) ∈ t.fams) : ∃ p, sub t p = some (.node m l r) := by
  induction t with
  | nil => simp [MatchTree.fams] at h
  | node m0 l0 r0 ihl ihr =>
    simp only [MatchTree.fams, List.mem_cons, List.mem_append, Prod.mk.injEq] at h
    rcases h with ⟨rfl, rfl, rfl⟩ | h | h
    · exact ⟨[], rfl⟩
    · obtain ⟨p, hp⟩ := ihl h
      exact ⟨Dir.L :: p, hp⟩
    · obtain ⟨p, hp⟩ := ihr h
      exact ⟨Dir.R :: p, hp⟩

/-! ## Facts about the generated bracket -/

/-- Depth decreases along paths: a subtree at depth `|p|` fits under the
total depth. -/
theorem sub_depth_le (t : MatchTree) (p : List Dir) (t' : MatchTree)
    (h : sub t p = some t') : p.length + get_depth t' ≤ get_depth t := by
  induction t generalizing p with
  | nil =>
    cases p with
    | nil => cases h; simp
    | cons dir p' => simp [sub] at h
  | node m l r ihl ihr =>
    cases p with
    | nil => cases h; simp
    | cons dir p' =>
      cases dir with
      | L =>
        have := ihl p' h
        simp only [get_depth, List.length_cons]
        omega
      | R =>
        have := ihr p' h
        simp only [get_depth, List.length_cons]
        omega

/-- In a well-formed built tree an internal node has both children, hence
depth at least 2. -/
theorem internal_depth (m : Match) (l r : MatchTree)
    (h : StateOk (.node m l r) = true) (hm : m.is_leaf = false) :
    2 ≤ get_depth (.node m l r) := by
  simp only [StateOk, Bool.and_eq_true, decide_eq_true_eq] at h
  obtain ⟨⟨⟨_, hmid⟩, _⟩, _⟩ := h
  rw [if_neg (by simp [hm])] at hmid
  simp only [Bool.and_eq_true, decide_eq_true_eq] at hmid
  have hlnil : l ≠ .nil := by
    rcases hmid with ⟨⟨h1, _⟩, _⟩
    exact h1
  cases l with
  | nil => exact absurd rfl hlnil
  | node m2 l2 r2 => simp [get_depth]; omega

/-- Bundled facts about `genTree`: state invariant, distinct ids, exact leaf
and internal counts, depth bounds and an internal root. -/
theorem genTree_facts (parts : List Nat) (st : GenState)
    (h2 : 2 ≤ parts.length) :
    StateOk (genTree parts st) = true ∧
    (genTree parts st).idList.Nodup ∧
    (genTree parts st).leafCount = parts.length ∧
    (genTree parts st).internalCount = parts.length - 1 ∧
    2 ≤ get_depth (genTree parts st) ∧
    (3 ≤ parts.length → 3 ≤ get_depth (genTree parts st)) ∧
    get_depth (genTree parts st) ≤ parts.length ∧
    (genTree parts st).isLeafRoot = false := by
  obtain ⟨h1, hb2, h3, h4, h5, h6, h7, h8, h9, h10, h11⟩ :=
    build_facts parts (parts.length - 1) 0 (parts.length - 1) st (by omega) (by omega)
  unfold genTree create_bracket_rec
  rw [Nat.sub_zero]
  refine ⟨stateOk_fix _ _ _ h4, ?_, ?_, ?_, ?_, ?_, ?_, ?_⟩
  · rw [idList_fix]; exact h3
  · rw [leafCount_fix, h5]; omega
  · rw [internalCount_fix, h6]
    omega
  · rw [get_depth_fix]; exact h8 (by omega)
  · intro h3'
    rw [get_depth_fix]
    exact h9 (by omega)
  · rw [get_depth_fix]
    omega
  · rw [isLeafRoot_fix, h10]
    simp
    omega

/-- The normalized round of every match in the generated bracket: an
internal match at depth `k` carries round `normMax(depth) - k`, and a leaf
match keeps round 1. -/
theorem rounds_formula_aux (parts : List Nat) (st : GenState)
    (h2 : 2 ≤ parts.length) (p : List Dir) (m : Match) (l r : MatchTree)
    (hsub : sub (genTree parts st) p = some (.node m l r)) :
    (m.is_leaf = false →
      m.round = normMax (get_depth (genTree parts st)) - p.length) ∧
    (m.is_leaf = true → m.round = 1) := by
  obtain ⟨hb1, hb2, hb3, hb4, hb5, hb6, hb7, hb8, hb9, hb10, hb11⟩ :=
    build_facts parts (parts.length - 1) 0 (parts.length - 1) st (by omega) (by omega)
  unfold genTree create_bracket_rec at hsub ⊢
  rw [Nat.sub_zero] at hsub ⊢
  rw [get_depth_fix]
  rw [sub_fix] at hsub
  cases hs0 : sub (create_bracket_go parts (parts.length - 1) 0
      (parts.length - 1) st).1 p with
  | none => rw [hs0] at hsub; cases hsub
  | some t0 =>
    rw [hs0] at hsub
    simp only [Option.map_some'] at hsub
    cases t0 with
    | nil => cases hsub
    | node m0 l0 r0 =>
      rw [fix_rounds_node] at hsub
      have hOk0 : StateOk (.node m0 l0 r0) = true := stateOk_sub _ p _ hb4 hs0
      by_cases hm0 : m0.is_leaf
      · rw [if_pos hm0] at hsub
        injection hsub with hnode
        injection hnode with hm hl hr
        subst hm
        constructor
        · intro hfalse
          rw [hfalse] at hm0
          cases hm0
        · intro _
          simp only [StateOk, Bool.and_eq_true, decide_eq_true_eq] at hOk0
          obtain ⟨⟨⟨_, hmid⟩, _⟩, _⟩ := hOk0
          rw [if_pos hm0] at hmid
          simp only [decide_eq_true_eq] at hmid
          exact hmid.1
      · rw [if_neg hm0] at hsub
        injection hsub with hnode
        injection hnode with hm hl hr
        subst hm
        constructor
        · intro _
          simp
        · intro htrue
          simp at htrue
          exact absurd htrue hm0

/-- `normMax` of a depth at least 2 is depth minus one. -/
theorem normMax_of_two_le (d : Nat) (h : 2 ≤ d) : normMax d = (d : Int) - 1 := by
  unfold normMax
  rw [if_pos (by omega : 1 < d)]

/-- C3 (amended claim theorem): after round normalization every leaf match
keeps round 1 and every internal match at depth `k` carries round
`(depth - 1) - k ≥ 1`; hence internal rounds increase by exactly one toward
the final.  A match with both children leaves (seeded into the ready queue
at build time) has round 1 only when it sits at the deepest internal level;
at shallower levels (possible when the entrant count is not a power of two)
it receives a larger round. -/
theorem rounds_after_normalization (parts : List Nat) (st : GenState)
    (h2 : 2 ≤ parts.length) (p : List Dir) (m : Match) (l r : MatchTree)
    (hsub : sub (genTree parts st) p = some (.node m l r)) :
    (m.is_leaf = true → m.round = 1) ∧
    (m.is_leaf = false →
      m.round = normMax (get_depth (genTree parts st)) - p.length ∧
      1 ≤ m.round) ∧
    (∀ ml ll lr, l = .node ml ll lr → ml.is_leaf = false →
      ml.round = m.round - 1) ∧
    (∀ mr rl rr, r = .node mr rl rr → mr.is_leaf = false →
      mr.round = m.round - 1) := by
  obtain ⟨hOk, _, _, _, hd2, _, _, _⟩ := genTree_facts parts st h2
  have hform := rounds_formula_aux parts st h2 p m l r hsub
  have hOkNode : StateOk (.node m l r) = true := stateOk_sub _ p _ hOk hsub
  have hnm := normMax_of_two_le _ hd2
  have hInternal : m.is_leaf = false → ∀ c cl cr dirSide,
      (l = MatchTree.node c cl cr ∧ dirSide = true ∨
       r = MatchTree.node c cl cr ∧ dirSide = false) → c.is_leaf = false →
      c.round = m.round - 1 := by
    intro hm c cl cr dirSide hside hc
    rcases hside with ⟨hl, _⟩ | ⟨hr, _⟩
    · subst hl
      have hsubL := sub_snoc_left _ p m _ r hsub
      have hchild := rounds_formula_aux parts st h2 (p ++ [Dir.L]) c cl cr hsubL
      rw [hchild.1 hc, hform.1 hm]
      push_cast [List.length_append, List.length_cons, List.length_nil]
      ring
    · subst hr
      have hsubR := sub_snoc_right _ p m l _ hsub
      have hchild := rounds_formula_aux parts st h2 (p ++ [Dir.R]) c cl cr hsubR
      rw [hchild.1 hc, hform.1 hm]
      push_cast [List.length_append, List.length_cons, List.length_nil]
      ring
  have hNotLeafOfChild : ∀ (c : Match) (cl cr : MatchTree),
      l = MatchTree.node c cl cr ∨ r = MatchTree.node c cl cr →
      m.is_leaf = false := by
    intro c cl cr hside
    by_contra hc
    have hm : m.is_leaf = true := by simpa using hc
    simp only [StateOk, Bool.and_eq_true, decide_eq_true_eq] at hOkNode
    obtain ⟨⟨⟨_, hmid⟩, _⟩, _⟩ := hOkNode
    rw [if_pos hm] at hmid
    simp only [decide_eq_true_eq] at hmid
    rcases hside with hl | hr
    · rw [hmid.2.2.1] at hl; cases hl
    · rw [hmid.2.2.2] at hr; cases hr
  refine ⟨hform.2, ?_, ?_, ?_⟩
  · intro hm
    refine ⟨hform.1 hm, ?_⟩
    have hdep := sub_depth_le _ p _ hsub
    have hnode_d : 2 ≤ get_depth (.node m l r) := internal_depth m l r hOkNode hm
    rw [hform.1 hm, hnm]
    omega
  · intro ml ll lr hl hml
    exact hInternal (hNotLeafOfChild ml ll lr (Or.inl hl)) ml ll lr true
      (Or.inl ⟨hl, rfl⟩) hml
  · intro mr rl rr hr hmr
    exact hInternal (hNotLeafOfChild mr rl rr (Or.inr hr)) mr rl rr false
      (Or.inr ⟨hr, rfl⟩) hmr

/-- Witness for the amended C3: in the five-entrant bracket the queue-seeded
match 107 (both children leaves) sits at depth 1 and receives round
`normMax(4) - 1 = 2`. -/
theorem rounds_after_normalization_witness :
    ({ match_id := 107, player1 := some 4, player2 := some 5,
       round := 2 } : Match).round =
      normMax (get_depth (genTree [1, 2, 3, 4, 5] genStart)) -
        ([Dir.R] : List Dir).length ∧
    1 ≤ ({ match_id := 107, player1 := some 4, player2 := some 5,
           round := 2 } : Match).round :=
  (rounds_after_normalization [1, 2, 3, 4, 5] genStart (by decide) [Dir.R]
      { match_id := 107, player1 := some 4, player2 := some 5, round := 2 }
      (.node { match_id := 105, player1 := some 4, round := 1,
               is_leaf := true } .nil .nil)
      (.node { match_id := 106, player1 := some 5, round := 1,
               is_leaf := true } .nil .nil)
      (by decide)).2.1 rfl

/-- C3 (counterexample): for five entrants the match with id 107 has both
children leaves and is seeded into the ready queue at build time — it is a
first-round match in the claim's sense — yet its normalized round number is
2, not 1. -/
theorem round_one_counterexample :
    sub (genTree [1, 2, 3, 4, 5] genStart) [Dir.R] =
      some (.node { match_id := 107, player1 := some 4, player2 := some 5,
                    round := 2 }
        (.node { match_id := 105, player1 := some 4, round := 1,
                 is_leaf := true } .nil .nil)
        (.node { match_id := 106, player1 := some 5, round := 1,
                 is_leaf := true } .nil .nil)) ∧
    107 ∈ genQueue [1, 2, 3, 4, 5] genStart ∧
    ({ match_id := 107, player1 := some 4, player2 := some 5,
       round := 2 } : Match).round ≠ 1 := by
  decide

/-- C5 (claim theorem): for every entrant list of size `n ≥ 2` the generated
bracket has exactly `n` leaf matches and `n - 1` internal matches; every
proper node's round number is at most the root's, strictly below it whenever
`n ≥ 3`; and for `n = 2` every match's round equals the root's. -/
theorem bracket_counts_and_root_round (parts : List Nat) (st : GenState)
    (h2 : 2 ≤ parts.length) :
    (genTree parts st).leafCount = parts.length ∧
    (genTree parts st).internalCount = parts.length - 1 ∧
    (∀ p m l r, sub (genTree parts st) p = some (.node m l r) → p ≠ [] →
      m.round ≤ (genTree parts st).rootRound ∧
      (3 ≤ parts.length → m.round < (genTree parts st).rootRound)) ∧
    (parts.length = 2 → ∀ p m l r,
      sub (genTree parts st) p = some (.node m l r) →
      m.round = (genTree parts st).rootRound) := by
  obtain ⟨hOk, hnd, hlc, hic, hd2, hd3, hdle, hleaf⟩ := genTree_facts parts st h2
  have hnm := normMax_of_two_le _ hd2
  have hnnil : genTree parts st ≠ .nil := ne_nil_of_depth _ (by omega)
  obtain ⟨mr, lr, rr, hroot⟩ :
      ∃ mr lr rr, genTree parts st = .node mr lr rr := by
    cases h : genTree parts st with
    | nil => exact absurd h hnnil
    | node a b c => exact ⟨a, b, c, rfl⟩
  have hsubroot : sub (genTree parts st) [] = some (.node mr lr rr) := by
    rw [hroot]; rfl
  have hmr : mr.is_leaf = false := by
    rw [hroot] at hleaf
    simpa [MatchTree.isLeafRoot] using hleaf
  have hrootr : mr.round = normMax (get_depth (genTree parts st)) := by
    have := (rounds_formula_aux parts st h2 [] mr lr rr hsubroot).1 hmr
    simpa using this
  have hRRv : (genTree parts st).rootRound = mr.round := by
    rw [hroot]; rfl
  have hRR : (genTree parts st).rootRound =
      normMax (get_depth (genTree parts st)) := hRRv.trans hrootr
  refine ⟨hlc, hic, ?_, ?_⟩
  · intro p m l r hsub hp
    have hform := rounds_formula_aux parts st h2 p m l r hsub
    have hplen : 1 ≤ p.length := by
      cases p with
      | nil => exact absurd rfl hp
      | cons d q => simp
    by_cases hm : m.is_leaf
    · have h1 := hform.2 hm
      constructor
      · rw [h1, hRR, hnm]
        omega
      · intro h3
        have := hd3 h3
        rw [h1, hRR, hnm]
        omega
    · have hmf : m.is_leaf = false := by simpa using hm
      have h1 := hform.1 hmf
      constructor
      · rw [h1, hRR]
        omega
      · intro _
        rw [h1, hRR]
        omega
  · intro hn2 p m l r hsub
    have hd : get_depth (genTree parts st) = 2 := by omega
    cases p with
    | nil =>
      rw [hsubroot] at hsub
      injection hsub with hnode
      injection hnode with hm _ _
      rw [← hm, hRRv]
    | cons dir q =>
      have hform := rounds_formula_aux parts st h2 (dir :: q) m l r hsub
      by_cases hmtest : m.is_leaf
      · rw [hform.2 hmtest, hRR, hnm, hd]
        norm_num
      · exfalso
        have hmf : m.is_leaf = false := by simpa using hmtest
        have hOkNode : StateOk (.node m l r) = true :=
          stateOk_sub _ (dir :: q) _ hOk hsub
        have h2d : 2 ≤ get_depth (.node m l r) :=
          internal_depth m l r hOkNode hmf
        have hdep := sub_depth_le _ (dir :: q) _ hsub
        rw [hd] at hdep
        simp only [List.length_cons] at hdep
        omega

/-- Witness for C5: the three-entrant bracket has 3 leaf matches and 2
internal matches. -/
theorem bracket_counts_and_root_round_witness :
    (genTree [10, 20, 30] genStart).leafCount = 3 ∧
    (genTree [10, 20, 30] genStart).internalCount = 2 :=
  ⟨(bracket_counts_and_root_round [10, 20, 30] genStart (by decide)).1,
   (bracket_counts_and_root_round [10, 20, 30] genStart (by decide)).2.1⟩

/-- C2 (counterexample): on the concrete two-player session the second
`generate_ko` call does not refuse: it reports success, advances the match
id counter from 103 to 106 (the rebuilt tree uses fresh ids 103–105) and
reseeds the ready queue with the new first-round match 105 in place of the
old 102. -/
theorem generate_regeneration_counterexample :
    (generate_ko (generate_ko sessionA).2).1 = true ∧
    (generate_ko sessionA).2.next_mid = 103 ∧
    (generate_ko (generate_ko sessionA).2).2.next_mid = 106 ∧
    (generate_ko sessionA).2.match_queue = [102] ∧
    (generate_ko (generate_ko sessionA).2).2.match_queue = [105] := by
  decide

/-- Shared core of the amended C2: one `generate_ko` run on a registry of
at least two players succeeds, strictly advances the match id counter,
switches the mode and keeps the registry. -/
theorem generate_ko_step (s : Session) (h : 2 ≤ s.players.length) :
    (generate_ko s).1 = true ∧
    s.next_mid < (generate_ko s).2.next_mid ∧
    (generate_ko s).2.mode = "Knockout" ∧
    (generate_ko s).2.players = s.players := by
  obtain ⟨hb1, _⟩ := build_facts (s.players.map (·.id)) (s.players.length - 1)
    0 (s.players.length - 1)
    { next_mid := s.next_mid, avl := s.avl_root, queue := [] }
    (by omega) (by omega)
  unfold generate_ko
  rw [if_neg (by omega : ¬ s.players.length < 2)]
  refine ⟨rfl, ?_, rfl, rfl⟩
  show s.next_mid < (create_bracket_rec (s.players.map (·.id)) 0
    (s.players.length - 1)
    { next_mid := s.next_mid, avl := s.avl_root, queue := [] }).2.next_mid
  unfold create_bracket_rec
  rw [Nat.sub_zero, hb1]
  show s.next_mid < s.next_mid + (2 * (s.players.length - 1 - 0) + 1)
  omega

/-- C2 (amended claim theorem): `generate_ko` contains no
already-generated guard.  Invoked a second time on the same registry it does
not refuse: both calls succeed, each strictly advances the match id counter
(the rebuilt tree takes fresh ids and the queue is reseeded), and the only
failure condition is a registry of fewer than two entrants. -/
theorem generate_ko_no_regeneration_guard (s : Session)
    (h2 : 2 ≤ s.players.length) :
    (generate_ko s).1 = true ∧
    (generate_ko (generate_ko s).2).1 = true ∧
    s.next_mid < (generate_ko s).2.next_mid ∧
    (generate_ko s).2.next_mid < (generate_ko (generate_ko s).2).2.next_mid ∧
    (generate_ko s).2.mode = "Knockout" := by
  obtain ⟨ha1, ha2, ha3, ha4⟩ := generate_ko_step s h2
  obtain ⟨hc1, hc2, hc3, hc4⟩ :=
    generate_ko_step (generate_ko s).2 (by rw [ha4]; exact h2)
  exact ⟨ha1, hc1, ha2, hc2, ha3⟩

/-- Witness for the amended C2: the concrete two-player session. -/
theorem generate_ko_no_regeneration_guard_witness :
    (generate_ko sessionA).1 = true ∧
    (generate_ko (generate_ko sessionA).2).1 = true ∧
    sessionA.next_mid < (generate_ko sessionA).2.next_mid ∧
    (generate_ko sessionA).2.next_mid <
      (generate_ko (generate_ko sessionA).2).2.next_mid ∧
    (generate_ko sessionA).2.mode = "Knockout" :=
  generate_ko_no_regeneration_guard sessionA (by decide)

/-! ## Reporting as a per-match map over the tree -/

/-- Matches of a tree carry ids of the tree. -/
theorem matchList_id_mem (t : MatchTree) (m : Match)
    (h : m ∈ t.matchList) : m.match_id ∈ t.idList := by
  induction t with
  | nil => simp [MatchTree.matchList] at h
  | node m0 l r ihl ihr =>
    simp only [MatchTree.matchList, List.mem_cons, List.mem_append] at h
    simp only [MatchTree.idList, List.mem_cons, List.mem_append]
    rcases h with rfl | h | h
    · exact Or.inl rfl
    · exact Or.inr (Or.inl (ihl h))
    · exact Or.inr (Or.inr (ihr h))

/-- A pointwise-identity map leaves the tree unchanged. -/
theorem mapMatches_id (t : MatchTree) (f : Match → Match)
    (h : ∀ m ∈ t.matchList, f m = m) : t.mapMatches f = t := by
  induction t with
  | nil => rfl
  | node m l r ihl ihr =>
    simp only [MatchTree.mapMatches]
    rw [h m (by simp [MatchTree.matchList]),
        ihl (fun x hx => h x (by simp [MatchTree.matchList, hx])),
        ihr (fun x hx => h x (by simp [MatchTree.matchList, hx]))]

/-- Composition of per-match maps. -/
theorem mapMatches_comp (t : MatchTree) (f g : Match → Match) :
    (t.mapMatches g).mapMatches f = t.mapMatches (fun m => f (g m)) := by
  induction t with
  | nil => rfl
  | node m l r ihl ihr => simp [MatchTree.mapMatches, ihl, ihr]

/-- An id-preserving per-match map preserves the id list. -/
theorem idList_mapMatches (t : MatchTree) (f : Match → Match)
    (h : ∀ m, (f m).match_id = m.match_id) :
    (t.mapMatches f).idList = t.idList := by
  induction t with
  | nil => rfl
  | node m l r ihl ihr => simp [MatchTree.mapMatches, MatchTree.idList, ihl, ihr, h]

/-- Subtrees of a mapped tree are mapped subtrees. -/
theorem sub_mapMatches (t : MatchTree) (f : Match → Match) (p : List Dir) :
    sub (t.mapMatches f) p = (sub t p).map (fun t' => t'.mapMatches f) := by
  induction t generalizing p with
  | nil =>
    cases p with
    | nil => rfl
    | cons dir p' => cases dir <;> rfl
  | node m l r ihl ihr =>
    cases p with
    | nil => rfl
    | cons dir p' =>
      cases dir with
      | L => exact ihl p'
      | R => exact ihr p'

/-- `fUpd` preserves the match id. -/
theorem fUpd_id (mid w s1 s2 : Nat) (m : Match) :
    (fUpd mid w s1 s2 m).match_id = m.match_id := by
  unfold fUpd
  by_cases h : m.match_id = mid ∧ m.winner = none
  · rw [if_pos h]; rfl
  · rw [if_neg h]

/-- `batchF` preserves the match id. -/
theorem batchF_id (batch : List (Nat × Nat × Nat × Nat)) (m : Match) :
    (batchF batch m).match_id = m.match_id := by
  unfold batchF
  cases hf : batch.find? (fun e => e.1 == m.match_id) with
  | none => rfl
  | some e =>
    obtain ⟨mid, w, s1, s2⟩ := e
    show (if m.winner = none then applyResult m w s1 s2 else m).match_id =
      m.match_id
    by_cases h : m.winner = none
    · rw [if_pos h]; rfl
    · rw [if_neg h]

/-- Being found equals being listed. -/
theorem matchById_isSome_iff (t : MatchTree) (mid : Nat) :
    (matchById t mid).isSome = true ↔ mid ∈ t.idList := by
  induction t with
  | nil => simp [matchById, MatchTree.idList]
  | node m l r ihl ihr =>
    simp only [MatchTree.idList, List.mem_cons, List.mem_append]
    by_cases hid : m.match_id = mid
    · simp [matchById, hid]
    · rw [matchById, if_neg hid]
      cases hL : matchById l mid with
      | some x =>
        simp only [hL, Option.isSome_some, true_iff]
        rw [hL] at ihl
        simp only [Option.isSome_some, true_iff] at ihl
        exact Or.inr (Or.inl ihl)
      | none =>
        rw [hL] at ihl
        simp only [Option.isSome_none, Bool.false_eq_true, false_iff] at ihl
        simp only [ihr]
        constructor
        · intro h
          exact Or.inr (Or.inr h)
        · rintro (h | h | h)
          · exact absurd h.symm hid
          · exact absurd h ihl
          · exact h

/-- The found flag of `update_match_generic` matches `matchById`. -/
theorem upd_found_eq (t : MatchTree) (mid w s1 s2 : Nat) (ps : List Player)
    (pl : Nat) :
    (update_match_generic t mid w s1 s2 ps pl).1.1 =
      (matchById t mid).isSome := by
  induction t generalizing ps pl with
  | nil => rfl
  | node m l r ihl ihr =>
    by_cases hid : m.match_id = mid
    · rw [update_match_generic, if_pos hid, matchById, if_pos hid]
      by_cases hw : m.winner.isSome
      · rw [if_pos hw]
        rfl
      · rw [if_neg hw]
        rfl
    · rw [update_match_generic, if_neg hid, matchById, if_neg hid]
      cases hL : matchById l mid with
      | some x =>
        have hFl : (update_match_generic l mid w s1 s2 ps pl).1.1 = true := by
          rw [ihl ps pl, hL]
          rfl
        simp [hFl]
      | none =>
        have hFl : (update_match_generic l mid w s1 s2 ps pl).1.1 = false := by
          rw [ihl ps pl, hL]
          rfl
        simp [hFl, ihr]

/-- With distinct ids, the tree component of one report is the per-match
map `fUpd`: the undecided match carrying the reported id receives the
result, everything else is untouched. -/
theorem upd_map (t : MatchTree) (mid w s1 s2 : Nat) (ps : List Player)
    (pl : Nat) (hnd : t.idList.Nodup) :
    (update_match_generic t mid w s1 s2 ps pl).2.1 =
      t.mapMatches (fUpd mid w s1 s2) := by
  induction t generalizing ps pl with
  | nil => rfl
  | node m l r ihl ihr =>
    simp only [MatchTree.idList, List.nodup_cons, List.mem_append,
      List.nodup_append] at hnd
    obtain ⟨hnotin, hndl, hndr, hdisj⟩ := hnd
    by_cases hid : m.match_id = mid
    · have hLid : ∀ x ∈ l.matchList, fUpd mid w s1 s2 x = x := by
        intro x hx
        unfold fUpd
        rw [if_neg (by
          rintro ⟨h1, _⟩
          exact hnotin (Or.inl (by rw [hid, ← h1]; exact matchList_id_mem l x hx)))]
      have hRid : ∀ x ∈ r.matchList, fUpd mid w s1 s2 x = x := by
        intro x hx
        unfold fUpd
        rw [if_neg (by
          rintro ⟨h1, _⟩
          exact hnotin (Or.inr (by rw [hid, ← h1]; exact matchList_id_mem r x hx)))]
      by_cases hw : m.winner.isSome
      · rw [update_match_generic, if_pos hid, if_pos hw]
        show MatchTree.node m l r = _
        simp only [MatchTree.mapMatches]
        rw [show fUpd mid w s1 s2 m = m from by
            unfold fUpd
            rw [if_neg (by rintro ⟨_, h2⟩; rw [h2] at hw; simp at hw)],
          mapMatches_id l _ hLid, mapMatches_id r _ hRid]
      · rw [update_match_generic, if_pos hid, if_neg hw]
        show MatchTree.node (applyResult m w s1 s2) l r = _
        simp only [MatchTree.mapMatches]
        rw [show fUpd mid w s1 s2 m = applyResult m w s1 s2 from by
            unfold fUpd
            rw [if_pos ⟨hid, by simpa using hw⟩],
          mapMatches_id l _ hLid, mapMatches_id r _ hRid]
    · rw [update_match_generic, if_neg hid]
      have hmroot : fUpd mid w s1 s2 m = m := by
        unfold fUpd
        rw [if_neg (by rintro ⟨h1, _⟩; exact hid h1)]
      split
      next f lo l' ps' pl' heq =>
        have hl'eq : l' = MatchTree.mapMatches (fUpd mid w s1 s2) l := by
          have h3 := ihl ps pl hndl
          rw [heq] at h3
          exact h3
        have hfound' : f = (matchById l mid).isSome := by
          have h4 := upd_found_eq l mid w s1 s2 ps pl
          rw [heq] at h4
          exact h4
        by_cases hf : f = true
        · rw [if_pos hf]
          have hmem : mid ∈ l.idList :=
            (matchById_isSome_iff l mid).mp (by rw [← hfound']; exact hf)
          show MatchTree.node m l' r =
            MatchTree.mapMatches (fUpd mid w s1 s2) (MatchTree.node m l r)
          simp only [MatchTree.mapMatches]
          rw [hmroot, hl'eq, mapMatches_id r _ (fun x hx => by
            unfold fUpd
            rw [if_neg (by
              rintro ⟨h1, _⟩
              exact hdisj hmem (h1 ▸ matchList_id_mem r x hx))])]
        · rw [if_neg hf]
          split
          next f2 lo2 r' ps'' pl'' heq2 =>
            have hr'eq : r' = MatchTree.mapMatches (fUpd mid w s1 s2) r := by
              have h3 := ihr ps' pl' hndr
              rw [heq2] at h3
              exact h3
            show MatchTree.node m l' r' =
              MatchTree.mapMatches (fUpd mid w s1 s2) (MatchTree.node m l r)
            simp only [MatchTree.mapMatches]
            rw [hmroot, hl'eq, hr'eq]

/-- `batchF` on a cons cell: the head entry applies when its id matches. -/
theorem batchF_cons (mid w s1 s2 : Nat) (rest : List (Nat × Nat × Nat × Nat))
    (m : Match) :
    batchF ((mid, w, s1, s2) :: rest) m =
      if mid = m.match_id then
        (if m.winner = none then applyResult m w s1 s2 else m)
      else batchF rest m := by
  unfold batchF
  by_cases hb : mid = m.match_id
  · rw [List.find?_cons_of_pos _ (by simpa using hb), if_pos hb]
  · rw [List.find?_cons_of_neg _ (by simpa using hb), if_neg hb]

/-- `batchF` never touches a decided match. -/
theorem batchF_decided (batch : List (Nat × Nat × Nat × Nat)) (m : Match)
    (hw : ¬ m.winner = none) : batchF batch m = m := by
  unfold batchF
  cases hf : batch.find? (fun e => e.1 == m.match_id) with
  | none => rfl
  | some e =>
    obtain ⟨a, b, c, d⟩ := e
    show (if m.winner = none then applyResult m b c d else m) = m
    rw [if_neg hw]

/-- Reporting a whole batch acts as the per-match map `batchF`. -/
theorem foldBatch_map (batch : List (Nat × Nat × Nat × Nat)) :
    ∀ (t : MatchTree) (ps : List Player) (pl : Nat), t.idList.Nodup →
      (foldBatch t ps pl batch).1 = t.mapMatches (batchF batch) := by
  induction batch with
  | nil =>
    intro t ps pl hnd
    exact (mapMatches_id t _ (fun m _ => rfl)).symm
  | cons e rest ih =>
    intro t ps pl hnd
    obtain ⟨mid, w, s1, s2⟩ := e
    show (foldBatch (update_match_generic t mid w s1 s2 ps pl).2.1 _ _ rest).1 = _
    have hndt : ((update_match_generic t mid w s1 s2 ps pl).2.1).idList.Nodup := by
      rw [upd_map t mid w s1 s2 ps pl hnd, idList_mapMatches t _ (fUpd_id mid w s1 s2)]
      exact hnd
    rw [ih _ _ _ hndt, upd_map t mid w s1 s2 ps pl hnd, mapMatches_comp]
    apply congrArg (fun f => t.mapMatches f)
    funext m
    show batchF rest (fUpd mid w s1 s2 m) = batchF ((mid, w, s1, s2) :: rest) m
    rw [batchF_cons]
    by_cases hid : mid = m.match_id
    · rw [if_pos hid]
      by_cases hw : m.winner = none
      · have h1 : fUpd mid w s1 s2 m = applyResult m w s1 s2 := by
          unfold fUpd; rw [if_pos ⟨hid.symm, hw⟩]
        rw [h1, if_pos hw]
        exact batchF_decided rest _ (by simp [applyResult])
      · have h1 : fUpd mid w s1 s2 m = m := by
          unfold fUpd; rw [if_neg (by rintro ⟨_, h⟩; exact hw h)]
        rw [h1, if_neg hw]
        exact batchF_decided rest m hw
    · rw [if_neg hid]
      have h1 : fUpd mid w s1 s2 m = m := by
        unfold fUpd; rw [if_neg (by rintro ⟨h, _⟩; exact hid h.symm)]
      rw [h1]

/-- The propagator never changes the winner at the root. -/
theorem check_rootWinner (t : MatchTree) (q : List Nat) :
    (check_schedule t q).1.rootWinner = t.rootWinner := by
  cases t with
  | nil => rfl
  | node m l r =>
    by_cases hml : m.is_leaf = true
    · simp only [check_schedule]
      rw [if_pos hml]
    · simp only [check_schedule]
      rw [if_neg hml]
      rcases hL : check_schedule l q with ⟨l1, q1⟩
      simp only [hL]
      rcases hR : check_schedule r q1 with ⟨r1, q2⟩
      simp only [hR]
      split
      · rfl
      · rfl

/-- The propagator only appends to the ready queue. -/
theorem check_queue_mono (t : MatchTree) : ∀ q : List Nat,
    ∃ d, (check_schedule t q).2 = q ++ d := by
  induction t with
  | nil => intro q; exact ⟨[], (List.append_nil q).symm⟩
  | node m l r ihl ihr =>
    intro q
    by_cases hml : m.is_leaf = true
    · simp only [check_schedule]
      rw [if_pos hml]
      exact ⟨[], (List.append_nil q).symm⟩
    · simp only [check_schedule]
      rw [if_neg hml]
      rcases hL : check_schedule l q with ⟨l1, q1⟩
      simp only [hL]
      rcases hR : check_schedule r q1 with ⟨r1, q2⟩
      simp only [hR]
      obtain ⟨d1, hd1⟩ := ihl q
      obtain ⟨d2, hd2⟩ := ihr q1
      have h1 : q1 = q ++ d1 := by rw [hL] at hd1; exact hd1
      have h2 : q2 = q1 ++ d2 := by rw [hR] at hd2; exact hd2
      split
      · refine ⟨d1 ++ d2 ++ [m.match_id], ?_⟩
        show q2 ++ [m.match_id] = q ++ (d1 ++ d2 ++ [m.match_id])
        rw [h2, h1]
        simp
      · refine ⟨d1 ++ d2, ?_⟩
        show q2 = q ++ (d1 ++ d2)
        rw [h2, h1]
        simp

/-- The propagator preserves the list of match ids. -/
theorem idList_check (t : MatchTree) : ∀ q : List Nat,
    (check_schedule t q).1.idList = t.idList := by
  induction t with
  | nil => intro q; rfl
  | node m l r ihl ihr =>
    intro q
    by_cases hml : m.is_leaf = true
    · simp only [check_schedule]
      rw [if_pos hml]
    · simp only [check_schedule]
      rw [if_neg hml]
      rcases hL : check_schedule l q with ⟨l1, q1⟩
      simp only [hL]
      rcases hR : check_schedule r q1 with ⟨r1, q2⟩
      simp only [hR]
      have h1 : l1.idList = l.idList := by rw [← ihl q, hL]
      have h2 : r1.idList = r.idList := by rw [← ihr q1, hR]
      split
      · show (MatchTree.node _ l1 r1).idList = (MatchTree.node m l r).idList
        simp [MatchTree.idList, h1, h2]
      · show (MatchTree.node m l1 r1).idList = (MatchTree.node m l r).idList
        simp [MatchTree.idList, h1, h2]

/-- One propagator pass fills and enqueues every ready internal match: if a
node's two children both have winners while the node itself is undecided
with an empty slot 1, then after `check_schedule` the node carries the two
children's winners in its slots and its id has been appended to the ready
queue. -/
theorem check_fills (t : MatchTree) : ∀ q : List Nat, WF t = true →
    ∀ (m : Match) (l r : MatchTree) (wl wr : Nat),
      (m, l, r) ∈ t.fams → m.is_leaf = false →
      l.rootWinner = some wl → r.rootWinner = some wr →
      m.winner = none → m.player1 = none →
      (∃ l' r', ({ m with player1 := some wl, player2 := some wr }, l', r') ∈
          (check_schedule t q).1.fams) ∧
        m.match_id ∈ (check_schedule t q).2 := by
  induction t with
  | nil =>
    intro q _ m l r wl wr hmem
    exact absurd hmem (by simp [MatchTree.fams])
  | node m0 l0 r0 ihl ihr =>
    intro q hwf m l r wl wr hmem hleaf hl hr hw hp
    simp only [WF, Bool.and_eq_true] at hwf
    obtain ⟨⟨hsh, hwl⟩, hwr⟩ := hwf
    by_cases hml : m0.is_leaf = true
    · exfalso
      rw [if_pos hml] at hsh
      obtain ⟨hln, hrn⟩ := of_decide_eq_true hsh
      subst hln; subst hrn
      simp only [MatchTree.fams, List.append_nil, List.mem_singleton,
        Prod.mk.injEq] at hmem
      obtain ⟨hm0, -, -⟩ := hmem
      rw [← hm0, hleaf] at hml
      exact absurd hml (by simp)
    · simp only [check_schedule]
      rw [if_neg hml]
      rcases hL : check_schedule l0 q with ⟨l1, q1⟩
      simp only [hL]
      rcases hR : check_schedule r0 q1 with ⟨r1, q2⟩
      simp only [hR]
      simp only [MatchTree.fams, List.mem_cons, List.mem_append,
        Prod.mk.injEq] at hmem
      rcases hmem with ⟨hm0, hl0, hr0⟩ | hmem | hmem
      · subst hm0; subst hl0; subst hr0
        have h1w : l1.rootWinner = some wl := by
          have hcw := check_rootWinner l q
          rw [hL] at hcw
          exact hcw.trans hl
        have h2w : r1.rootWinner = some wr := by
          have hcw := check_rootWinner r q1
          rw [hR] at hcw
          exact hcw.trans hr
        split
        · next hc =>
          constructor
          · refine ⟨l1, r1, ?_⟩
            show ({ m with player1 := some wl, player2 := some wr }, l1, r1) ∈
              (MatchTree.node
                { m with player1 := l1.rootWinner, player2 := r1.rootWinner }
                l1 r1).fams
            rw [h1w, h2w]
            simp [MatchTree.fams]
          · show m.match_id ∈ q2 ++ [m.match_id]
            simp
        · next hc =>
          exfalso
          apply hc
          simp [h1w, h2w, hw, hp]
      · have hrec := ihl q hwl m l r wl wr hmem hleaf hl hr hw hp
        rw [hL] at hrec
        obtain ⟨⟨l2, r2, hmem2⟩, hq2⟩ := hrec
        obtain ⟨d2, hd2⟩ := check_queue_mono r0 q1
        have h2 : q2 = q1 ++ d2 := by rw [hR] at hd2; exact hd2
        have hq2' : m.match_id ∈ q2 := by
          rw [h2]
          exact List.mem_append_left _ hq2
        split
        · next hc =>
          constructor
          · refine ⟨l2, r2, ?_⟩
            simp only [MatchTree.fams, List.mem_cons, List.mem_append]
            exact Or.inr (Or.inl hmem2)
          · show m.match_id ∈ q2 ++ [m0.match_id]
            exact List.mem_append_left _ hq2'
        · next hc =>
          constructor
          · refine ⟨l2, r2, ?_⟩
            simp only [MatchTree.fams, List.mem_cons, List.mem_append]
            exact Or.inr (Or.inl hmem2)
          · exact hq2'
      · have hrec := ihr q1 hwr m l r wl wr hmem hleaf hl hr hw hp
        rw [hR] at hrec
        obtain ⟨⟨l2, r2, hmem2⟩, hq2⟩ := hrec
        split
        · next hc =>
          constructor
          · refine ⟨l2, r2, ?_⟩
            simp only [MatchTree.fams, List.mem_cons, List.mem_append]
            exact Or.inr (Or.inr hmem2)
          · show m.match_id ∈ q2 ++ [m0.match_id]
            exact List.mem_append_left _ hq2
        · next hc =>
          constructor
          · refine ⟨l2, r2, ?_⟩
            simp only [MatchTree.fams, List.mem_cons, List.mem_append]
            exact Or.inr (Or.inr hmem2)
          · exact hq2

/-- After one propagator pass no ready internal match is left unresolved:
every non-leaf node whose children both have winners either is decided or
has its slot 1 filled. -/
theorem check_noPartial (t : MatchTree) : ∀ q : List Nat, WF t = true →
    ∀ (m : Match) (l r : MatchTree),
      (m, l, r) ∈ (check_schedule t q).1.fams →
      m.is_leaf = false → l.rootWinner.isSome = true → r.rootWinner.isSome = true →
      m.winner.isSome = true ∨ m.player1.isSome = true := by
  induction t with
  | nil =>
    intro q _ m l r hmem
    exact absurd hmem (by simp [check_schedule, MatchTree.fams])
  | node m0 l0 r0 ihl ihr =>
    intro q hwf m l r hmem hleaf hlw hrw
    simp only [WF, Bool.and_eq_true] at hwf
    obtain ⟨⟨hsh, hwl⟩, hwr⟩ := hwf
    by_cases hml : m0.is_leaf = true
    · rw [if_pos hml] at hsh
      obtain ⟨hln, hrn⟩ := of_decide_eq_true hsh
      subst hln; subst hrn
      simp only [check_schedule] at hmem
      rw [if_pos hml] at hmem
      simp only [MatchTree.fams, List.append_nil, List.mem_singleton,
        Prod.mk.injEq] at hmem
      obtain ⟨hm0, -, -⟩ := hmem
      rw [← hm0, hleaf] at hml
      exact absurd hml (by simp)
    · simp only [check_schedule] at hmem
      rw [if_neg hml] at hmem
      rcases hL : check_schedule l0 q with ⟨l1, q1⟩
      simp only [hL] at hmem
      rcases hR : check_schedule r0 q1 with ⟨r1, q2⟩
      simp only [hR] at hmem
      split at hmem
      · next hc =>
        simp only [MatchTree.fams, List.mem_cons, List.mem_append,
          Prod.mk.injEq] at hmem
        rcases hmem with ⟨hm0, -, -⟩ | hmem | hmem
        · right
          rw [hm0]
          simp only [Bool.and_eq_true, decide_eq_true_eq] at hc
          exact hc.1.1.1
        · exact ihl q hwl m l r (by rw [hL]; exact hmem) hleaf hlw hrw
        · exact ihr q1 hwr m l r (by rw [hR]; exact hmem) hleaf hlw hrw
      · next hc =>
        simp only [MatchTree.fams, List.mem_cons, List.mem_append,
          Prod.mk.injEq] at hmem
        rcases hmem with ⟨hm0, hl1, hr1⟩ | hmem | hmem
        · subst hm0; subst hl1; subst hr1
          by_cases hwin : m.winner.isSome = true
          · exact Or.inl hwin
          · by_cases hp1 : m.player1.isSome = true
            · exact Or.inr hp1
            · exfalso
              apply hc
              have h1 : m.winner = none := by
                cases hx : m.winner with
                | none => rfl
                | some y => exact absurd (by rw [hx]; rfl) hwin
              have h2 : m.player1 = none := by
                cases hx : m.player1 with
                | none => rfl
                | some y => exact absurd (by rw [hx]; rfl) hp1
              simp [hlw, hrw, h1, h2]
        · exact ihl q hwl m l r (by rw [hL]; exact hmem) hleaf hlw hrw
        · exact ihr q1 hwr m l r (by rw [hR]; exact hmem) hleaf hlw hrw

/-- A per-match map sends no tree to the absent tree. -/
theorem mapMatches_eq_nil_iff (t : MatchTree) (f : Match → Match) :
    t.mapMatches f = .nil ↔ t = .nil := by
  cases t <;> simp [MatchTree.mapMatches]

/-- A leaf-flag-preserving per-match map preserves structural
well-formedness. -/
theorem WF_mapMatches (t : MatchTree) (f : Match → Match)
    (h : ∀ m, (f m).is_leaf = m.is_leaf) :
    WF (t.mapMatches f) = WF t := by
  induction t with
  | nil => rfl
  | node m l r ihl ihr =>
    simp only [MatchTree.mapMatches, WF, h, ihl, ihr, ne_eq,
      mapMatches_eq_nil_iff]

/-- `batchF` preserves the leaf flag. -/
theorem batchF_isLeaf (batch : List (Nat × Nat × Nat × Nat)) (m : Match) :
    (batchF batch m).is_leaf = m.is_leaf := by
  unfold batchF
  cases hf : batch.find? (fun e => e.1 == m.match_id) with
  | none => rfl
  | some e =>
    obtain ⟨mid, w, s1, s2⟩ := e
    show (if m.winner = none then applyResult m w s1 s2 else m).is_leaf =
      m.is_leaf
    by_cases h : m.winner = none
    · rw [if_pos h]; rfl
    · rw [if_neg h]

/-- C6 (amended claim theorem): `check_schedule` walks post-order (children
before parents), so after reporting any batch of results in one go, a single
propagator pass fills the slots of and enqueues every match that became
ready — every internal match whose two children both carry winners while it
is undecided with an empty slot 1 — and leaves no such ready match partially
resolved.  (The original claim's promise that this covers *every* round-2
match fails when the entrant count is not a power of two: a round-2 match
with a leaf child never becomes ready, see the counterexample.) -/
theorem propagate_batch_one_pass (t : MatchTree) (ps : List Player)
    (played : Nat) (batch : List (Nat × Nat × Nat × Nat)) (q : List Nat)
    (hwf : WF t = true) (hnd : t.idList.Nodup) :
    (∀ (m : Match) (l r : MatchTree) (wl wr : Nat),
        (m, l, r) ∈ (foldBatch t ps played batch).1.fams →
        m.is_leaf = false → l.rootWinner = some wl → r.rootWinner = some wr →
        m.winner = none → m.player1 = none →
        (∃ l' r',
            ({ m with player1 := some wl, player2 := some wr }, l', r') ∈
              (check_schedule (foldBatch t ps played batch).1 q).1.fams) ∧
          m.match_id ∈ (check_schedule (foldBatch t ps played batch).1 q).2) ∧
    (∀ (m : Match) (l r : MatchTree),
        (m, l, r) ∈ (check_schedule (foldBatch t ps played batch).1 q).1.fams →
        m.is_leaf = false → l.rootWinner.isSome = true →
        r.rootWinner.isSome = true →
        m.winner.isSome = true ∨ m.player1.isSome = true) := by
  have hwfT : WF (foldBatch t ps played batch).1 = true := by
    rw [foldBatch_map batch t ps played hnd, WF_mapMatches t _ (batchF_isLeaf batch)]
    exact hwf
  exact ⟨fun m l r wl wr hmem hml hl hr hw hp =>
      check_fills _ q hwfT m l r wl wr hmem hml hl hr hw hp,
    fun m l r hmem hml hlw hrw =>
      check_noPartial _ q hwfT m l r hmem hml hlw hrw⟩

/-- Witness for the amended C6: in the four-entrant bracket, reporting both
round-1 results (matches 102 and 105) as one batch and running one
propagator pass fills the final (match 106) with the two winners and
enqueues it. -/
theorem propagate_batch_one_pass_witness :
    (∃ l' r',
        ({ match_id := 106, player1 := some 1, player2 := some 3,
           round := 2 }, l', r') ∈
          (check_schedule
            (foldBatch (genTree [1, 2, 3, 4] genStart) [] 0
              [(102, 1, 21, 15), (105, 3, 21, 10)]).1
            (genQueue [1, 2, 3, 4] genStart)).1.fams) ∧
    106 ∈ (check_schedule
        (foldBatch (genTree [1, 2, 3, 4] genStart) [] 0
          [(102, 1, 21, 15), (105, 3, 21, 10)]).1
        (genQueue [1, 2, 3, 4] genStart)).2 :=
  (propagate_batch_one_pass (genTree [1, 2, 3, 4] genStart) [] 0
      [(102, 1, 21, 15), (105, 3, 21, 10)] (genQueue [1, 2, 3, 4] genStart)
      (by decide) (by decide)).1
    { match_id := 106, round := 2 }
    (.node { match_id := 102, player1 := some 1, player2 := some 2,
             winner := some 1, round := 1, player1_score := 21,
             player2_score := 15 }
      (.node { match_id := 100, player1 := some 1, round := 1,
               is_leaf := true } .nil .nil)
      (.node { match_id := 101, player1 := some 2, round := 1,
               is_leaf := true } .nil .nil))
    (.node { match_id := 105, player1 := some 3, player2 := some 4,
             winner := some 3, round := 1, player1_score := 21,
             player2_score := 10 }
      (.node { match_id := 103, player1 := some 3, round := 1,
               is_leaf := true } .nil .nil)
      (.node { match_id := 104, player1 := some 4, round := 1,
               is_leaf := true } .nil .nil))
    1 3 (by decide) rfl rfl rfl rfl rfl

/-- C6 (counterexample): with three entrants the seeded round-1 batch is a
single match (102); after reporting it and running one propagator pass the
round-2 final (match 104, the root) still has an empty slot 1 and is not
enqueued — its other child is a leaf match that never acquires a winner, so
the pass does not enqueue all of round 2. -/
theorem propagate_round2_counterexample :
    genQueue [1, 2, 3] genStart = [102] ∧
    matchById (genTree [1, 2, 3] genStart) 104 =
      some { match_id := 104, round := 2 } ∧
    (check_schedule
        (foldBatch (genTree [1, 2, 3] genStart) [] 0 [(102, 1, 21, 15)]).1
        (genQueue [1, 2, 3] genStart)).1.rootPlayer1 = none ∧
    ¬ 104 ∈ (check_schedule
        (foldBatch (genTree [1, 2, 3] genStart) [] 0 [(102, 1, 21, 15)]).1
        (genQueue [1, 2, 3] genStart)).2 := by
  decide

/-- A blocked tree has an undecided root with an empty slot 1. -/
theorem blocked_root (t : MatchTree) (hb : Blocked t) :
    t.rootWinner = none ∧ t.rootPlayer1 = none := by
  cases hb with
  | baseL m lm ll lr r hm1 hm2 hm3 hl1 hl2 hl3 => exact ⟨hm2, hm3⟩
  | baseR m rm l rl rr hm1 hm2 hm3 hr1 hr2 hr3 => exact ⟨hm2, hm3⟩
  | stepL m l r hm1 hm2 hm3 hbl => exact ⟨hm2, hm3⟩
  | stepR m l r hm1 hm2 hm3 hbr => exact ⟨hm2, hm3⟩

/-- A per-match map that fixes every undecided slot-1-empty internal match
and every unfinished half-empty leaf match preserves blockedness. -/
theorem blocked_map (t : MatchTree) (hb : Blocked t) :
    ∀ f : Match → Match,
    (∀ m ∈ t.matchList,
        m.is_leaf = false → m.winner = none → m.player1 = none → f m = m) →
    (∀ m ∈ t.matchList,
        m.is_leaf = true → m.winner = none → m.player2 = none → f m = m) →
    Blocked (t.mapMatches f) := by
  induction hb with
  | baseL m lm ll lr r hm1 hm2 hm3 hl1 hl2 hl3 =>
    intro f h1 h2
    have hfm : f m = m := h1 m (by simp [MatchTree.matchList]) hm1 hm2 hm3
    have hflm : f lm = lm := h2 lm (by simp [MatchTree.matchList]) hl1 hl2 hl3
    show Blocked (MatchTree.node (f m)
      (MatchTree.node (f lm) (ll.mapMatches f) (lr.mapMatches f))
      (r.mapMatches f))
    rw [hfm, hflm]
    exact Blocked.baseL m lm _ _ _ hm1 hm2 hm3 hl1 hl2 hl3
  | baseR m rm l rl rr hm1 hm2 hm3 hr1 hr2 hr3 =>
    intro f h1 h2
    have hfm : f m = m := h1 m (by simp [MatchTree.matchList]) hm1 hm2 hm3
    have hfrm : f rm = rm := h2 rm (by simp [MatchTree.matchList]) hr1 hr2 hr3
    show Blocked (MatchTree.node (f m) (l.mapMatches f)
      (MatchTree.node (f rm) (rl.mapMatches f) (rr.mapMatches f)))
    rw [hfm, hfrm]
    exact Blocked.baseR m rm _ _ _ hm1 hm2 hm3 hr1 hr2 hr3
  | stepL m l r hm1 hm2 hm3 hbl ih =>
    intro f h1 h2
    have hfm : f m = m := h1 m (by simp [MatchTree.matchList]) hm1 hm2 hm3
    show Blocked (MatchTree.node (f m) (l.mapMatches f) (r.mapMatches f))
    rw [hfm]
    exact Blocked.stepL m _ _ hm1 hm2 hm3
      (ih f (fun x hx => h1 x (by simp [MatchTree.matchList, hx]))
        (fun x hx => h2 x (by simp [MatchTree.matchList, hx])))
  | stepR m l r hm1 hm2 hm3 hbr ih =>
    intro f h1 h2
    have hfm : f m = m := h1 m (by simp [MatchTree.matchList]) hm1 hm2 hm3
    show Blocked (MatchTree.node (f m) (l.mapMatches f) (r.mapMatches f))
    rw [hfm]
    exact Blocked.stepR m _ _ hm1 hm2 hm3
      (ih f (fun x hx => h1 x (by simp [MatchTree.matchList, hx]))
        (fun x hx => h2 x (by simp [MatchTree.matchList, hx])))

/-- The propagator preserves blockedness: no node on a blocked chain can be
filled, because the chain's blocking child keeps an unset winner. -/
theorem blocked_check (t : MatchTree) (hb : Blocked t) :
    ∀ q : List Nat, Blocked (check_schedule t q).1 := by
  induction hb with
  | baseL m lm ll lr r hm1 hm2 hm3 hl1 hl2 hl3 =>
    intro q
    rcases hR : check_schedule r q with ⟨r1, q2⟩
    simp only [check_schedule, hm1, hl1, hR, Bool.false_eq_true, if_false,
      if_true]
    split
    · next hc =>
      exfalso
      simp [MatchTree.rootWinner, hl2] at hc
    · next hc =>
      exact Blocked.baseL m lm ll lr r1 hm1 hm2 hm3 hl1 hl2 hl3
  | baseR m rm l rl rr hm1 hm2 hm3 hr1 hr2 hr3 =>
    intro q
    rcases hL : check_schedule l q with ⟨l1, q1⟩
    simp only [check_schedule, hm1, hr1, hL, Bool.false_eq_true, if_false,
      if_true]
    split
    · next hc =>
      exfalso
      simp [MatchTree.rootWinner, hr2] at hc
    · next hc =>
      exact Blocked.baseR m rm l1 rl rr hm1 hm2 hm3 hr1 hr2 hr3
  | stepL m l r hm1 hm2 hm3 hbl ih =>
    intro q
    have hnl : ¬ (m.is_leaf = true) := by simp [hm1]
    simp only [check_schedule]
    rw [if_neg hnl]
    rcases hL : check_schedule l q with ⟨l1, q1⟩
    simp only [hL]
    rcases hR : check_schedule r q1 with ⟨r1, q2⟩
    simp only [hR]
    have hbl1 : Blocked l1 := by
      have h := ih q
      rw [hL] at h
      exact h
    have hlw : l1.rootWinner = none := (blocked_root l1 hbl1).1
    split
    · next hc =>
      exfalso
      simp [hlw] at hc
    · next hc =>
      exact Blocked.stepL m l1 r1 hm1 hm2 hm3 hbl1
  | stepR m l r hm1 hm2 hm3 hbr ih =>
    intro q
    have hnl : ¬ (m.is_leaf = true) := by simp [hm1]
    simp only [check_schedule]
    rw [if_neg hnl]
    rcases hL : check_schedule l q with ⟨l1, q1⟩
    simp only [hL]
    rcases hR : check_schedule r q1 with ⟨r1, q2⟩
    simp only [hR]
    have hbr1 : Blocked r1 := by
      have h := ih q1
      rw [hR] at h
      exact h
    have hrw : r1.rootWinner = none := (blocked_root r1 hbr1).1
    split
    · next hc =>
      exfalso
      simp [hrw] at hc
    · next hc =>
      exact Blocked.stepR m l1 r1 hm1 hm2 hm3 hbr1

/-- The empty path yields the tree itself. -/
theorem sub_nil_path (t : MatchTree) : sub t [] = some t := by
  cases t <;> rfl

/-- Walking any path under the absent tree never yields a node. -/
theorem sub_nil_some (p : List Dir) (t' : MatchTree)
    (h : sub .nil p = some t') : t' = .nil := by
  cases p with
  | nil => exact (Option.some.inj h).symm
  | cons d p' => exact absurd h (by simp [sub])

/-- No internal match sits inside a leaf-rooted well-formed subtree. -/
theorem leafRoot_sub (t : MatchTree) (hlr : t.isLeafRoot = true)
    (hwf : WF t = true) (p : List Dir) (m : Match) (l r : MatchTree)
    (hsub : sub t p = some (.node m l r)) (hml : m.is_leaf = false) :
    False := by
  cases t with
  | nil => simp [MatchTree.isLeafRoot] at hlr
  | node m0 l0 r0 =>
    have hm0 : m0.is_leaf = true := hlr
    simp only [WF, Bool.and_eq_true] at hwf
    obtain ⟨⟨hsh, -⟩, -⟩ := hwf
    rw [if_pos hm0] at hsh
    obtain ⟨hln, hrn⟩ := of_decide_eq_true hsh
    subst hln; subst hrn
    cases p with
    | nil =>
      have h : some (MatchTree.node m0 .nil .nil) = some (.node m l r) := hsub
      simp only [Option.some.injEq, MatchTree.node.injEq] at h
      obtain ⟨h1, -, -⟩ := h
      rw [← h1, hm0] at hml
      exact absurd hml (by simp)
    | cons d p' =>
      cases d with
      | L =>
        have h := sub_nil_some p' (.node m l r) hsub
        exact absurd h (by simp)
      | R =>
        have h := sub_nil_some p' (.node m l r) hsub
        exact absurd h (by simp)

/-- The freshly-built state invariant implies structural well-formedness. -/
theorem stateOk_WF (t : MatchTree) (h : StateOk t = true) : WF t = true := by
  induction t with
  | nil => rfl
  | node m l r ihl ihr =>
    simp only [StateOk, Bool.and_eq_true] at h
    obtain ⟨⟨⟨hw, hif⟩, hsl⟩, hsr⟩ := h
    simp only [WF, Bool.and_eq_true]
    refine ⟨⟨?_, ihl hsl⟩, ihr hsr⟩
    by_cases hml : m.is_leaf = true
    · rw [if_pos hml] at hif ⊢
      have h2 := of_decide_eq_true hif
      exact decide_eq_true ⟨h2.2.2.1, h2.2.2.2⟩
    · rw [if_neg hml] at hif ⊢
      exact ((Bool.and_eq_true _ _).mp hif).1

/-- In a freshly built bracket, a node with one leaf child and one internal
child starts a blocked chain: every node on the path from the root down to
it is an undecided internal match with an empty slot 1, and the leaf child
is unfinished and half-empty. -/
theorem blocked_init (p : List Dir) : ∀ (t : MatchTree),
    StateOk t = true → WF t = true →
    ∀ (m : Match) (l r : MatchTree),
      sub t p = some (.node m l r) → m.is_leaf = false →
      ((l.isLeafRoot = true ∧ r.isInternalRoot = true) ∨
       (l.isInternalRoot = true ∧ r.isLeafRoot = true)) →
      Blocked t := by
  induction p with
  | nil =>
    intro t hso hwf m l r hsub hml hmix
    have ht : t = .node m l r :=
      Option.some.inj ((sub_nil_path t).symm.trans hsub)
    subst ht
    simp only [StateOk, Bool.and_eq_true] at hso
    obtain ⟨⟨⟨hw0, hif⟩, hsl⟩, hsr⟩ := hso
    have hw : m.winner = none := of_decide_eq_true hw0
    rw [if_neg (by simp [hml])] at hif
    obtain ⟨-, hif2⟩ := (Bool.and_eq_true _ _).mp hif
    rcases hmix with ⟨hll, hri⟩ | ⟨hli, hrl⟩
    · cases l with
      | nil => simp [MatchTree.isLeafRoot] at hll
      | node lm ll lr =>
        cases r with
        | nil => simp [MatchTree.isInternalRoot] at hri
        | node rm rl rr =>
          have hlm : lm.is_leaf = true := hll
          have hrm : rm.is_leaf = false := by
            simpa [MatchTree.isInternalRoot] using hri
          rw [if_neg (by simp [MatchTree.isLeafRoot, hrm])] at hif2
          obtain ⟨hp1, -⟩ := of_decide_eq_true hif2
          simp only [StateOk, Bool.and_eq_true] at hsl
          obtain ⟨⟨⟨hlw0, hlif⟩, -⟩, -⟩ := hsl
          have hlw : lm.winner = none := of_decide_eq_true hlw0
          rw [if_pos hlm] at hlif
          have hlf := of_decide_eq_true hlif
          exact Blocked.baseL m lm ll lr (.node rm rl rr) hml hw hp1 hlm hlw
            hlf.2.1
    · cases l with
      | nil => simp [MatchTree.isInternalRoot] at hli
      | node lm ll lr =>
        cases r with
        | nil => simp [MatchTree.isLeafRoot] at hrl
        | node rm rl rr =>
          have hrm : rm.is_leaf = true := hrl
          have hlm : lm.is_leaf = false := by
            simpa [MatchTree.isInternalRoot] using hli
          rw [if_neg (by simp [MatchTree.isLeafRoot, hlm])] at hif2
          obtain ⟨hp1, -⟩ := of_decide_eq_true hif2
          simp only [StateOk, Bool.and_eq_true] at hsr
          obtain ⟨⟨⟨hrw0, hrif⟩, -⟩, -⟩ := hsr
          have hrw : rm.winner = none := of_decide_eq_true hrw0
          rw [if_pos hrm] at hrif
          have hrf := of_decide_eq_true hrif
          exact Blocked.baseR m rm (.node lm ll lr) rl rr hml hw hp1 hrm hrw
            hrf.2.1
  | cons d p' ih =>
    intro t hso hwf m l r hsub hml hmix
    cases t with
    | nil => cases d <;> exact absurd hsub (by simp [sub])
    | node m0 l0 r0 =>
      simp only [StateOk, Bool.and_eq_true] at hso
      obtain ⟨⟨⟨hw0, hif⟩, hsl⟩, hsr⟩ := hso
      have hw : m0.winner = none := of_decide_eq_true hw0
      simp only [WF, Bool.and_eq_true] at hwf
      obtain ⟨⟨hsh, hwl⟩, hwr⟩ := hwf
      cases d with
      | L =>
        have hsub' : sub l0 p' = some (.node m l r) := hsub
        have hm0 : m0.is_leaf = false := by
          by_cases hx : m0.is_leaf = true
          · rw [if_pos hx] at hsh
            obtain ⟨hln, -⟩ := of_decide_eq_true hsh
            rw [hln] at hsub'
            exact absurd (sub_nil_some p' _ hsub') (by simp)
          · cases hy : m0.is_leaf with
            | false => rfl
            | true => exact absurd hy hx
        rw [if_neg (by simp [hm0])] at hif
        obtain ⟨-, hif2⟩ := (Bool.and_eq_true _ _).mp hif
        have hl0 : l0.isLeafRoot = false := by
          by_cases hx : l0.isLeafRoot = true
          · exact (leafRoot_sub l0 hx hwl p' m l r hsub' hml).elim
          · cases hy : l0.isLeafRoot with
            | false => rfl
            | true => exact absurd hy hx
        rw [if_neg (by simp [hl0])] at hif2
        obtain ⟨hp1, -⟩ := of_decide_eq_true hif2
        exact Blocked.stepL m0 l0 r0 hm0 hw hp1
          (ih l0 hsl hwl m l r hsub' hml hmix)
      | R =>
        have hsub' : sub r0 p' = some (.node m l r) := hsub
        have hm0 : m0.is_leaf = false := by
          by_cases hx : m0.is_leaf = true
          · rw [if_pos hx] at hsh
            obtain ⟨-, hrn⟩ := of_decide_eq_true hsh
            rw [hrn] at hsub'
            exact absurd (sub_nil_some p' _ hsub') (by simp)
          · cases hy : m0.is_leaf with
            | false => rfl
            | true => exact absurd hy hx
        rw [if_neg (by simp [hm0])] at hif
        obtain ⟨-, hif2⟩ := (Bool.and_eq_true _ _).mp hif
        have hr0 : r0.isLeafRoot = false := by
          by_cases hx : r0.isLeafRoot = true
          · exact (leafRoot_sub r0 hx hwr p' m l r hsub' hml).elim
          · cases hy : r0.isLeafRoot with
            | false => rfl
            | true => exact absurd hy hx
        rw [if_neg (by simp [hr0])] at hif2
        obtain ⟨hp1, -⟩ := of_decide_eq_true hif2
        exact Blocked.stepR m0 l0 r0 hm0 hw hp1
          (ih r0 hsr hwr m l r hsub' hml hmix)

/-- Disciplined operation sequences preserve blockedness and distinctness
of match ids: a playable-target report never touches a chain node (its
slot 1 is empty) or a blocking leaf (its slot 2 is empty), and the
propagator never fills a chain node (the blocking child has no winner). -/
theorem blocked_ops (ops : List Op) : ∀ (s : Session),
    Blocked s.bracket_root → s.bracket_root.idList.Nodup →
    disciplinedB s ops = true →
    Blocked (applyOps s ops).bracket_root ∧
      (applyOps s ops).bracket_root.idList.Nodup := by
  induction ops with
  | nil =>
    intro s hb hnd _
    exact ⟨hb, hnd⟩
  | cons op rest ih =>
    intro s hb hnd hdisc
    cases op with
    | rep mid w s1 s2 =>
      simp only [disciplinedB, Bool.and_eq_true] at hdisc
      obtain ⟨hgood, hdisc2⟩ := hdisc
      have hgood2 : ∀ x ∈ s.bracket_root.matchList, x.match_id = mid →
          x.player1.isSome = true ∧ x.player2.isSome = true := by
        intro x hx hxid
        have h := (List.all_eq_true.mp hgood) x hx
        rw [if_pos hxid] at h
        exact (Bool.and_eq_true _ _).mp h
      have htree : (stepOp s (.rep mid w s1 s2)).bracket_root =
          s.bracket_root.mapMatches (fUpd mid w s1 s2) := by
        show ((reportResult s mid w s1 s2).2).bracket_root = _
        rcases hu : update_match_generic s.bracket_root mid w s1 s2 s.players
          s.matches_played with ⟨⟨f, lo⟩, t', ps', pl'⟩
        have h2 : t' = s.bracket_root.mapMatches (fUpd mid w s1 s2) := by
          have h3 := upd_map s.bracket_root mid w s1 s2 s.players
            s.matches_played hnd
          rw [hu] at h3
          exact h3
        simp only [reportResult, hu]
        exact h2
      have hb2 : Blocked (stepOp s (.rep mid w s1 s2)).bracket_root := by
        rw [htree]
        refine blocked_map s.bracket_root hb (fUpd mid w s1 s2) ?_ ?_
        · intro x hx hxl hxw hxp
          unfold fUpd
          rw [if_neg (by
            rintro ⟨h1, -⟩
            have := (hgood2 x hx h1).1
            rw [hxp] at this
            simp at this)]
        · intro x hx hxl hxw hxp
          unfold fUpd
          rw [if_neg (by
            rintro ⟨h1, -⟩
            have := (hgood2 x hx h1).2
            rw [hxp] at this
            simp at this)]
      have hnd2 : (stepOp s (.rep mid w s1 s2)).bracket_root.idList.Nodup := by
        rw [htree, idList_mapMatches s.bracket_root _ (fUpd_id mid w s1 s2)]
        exact hnd
      exact ih _ hb2 hnd2 hdisc2
    | prop =>
      simp only [disciplinedB] at hdisc
      have htree : (stepOp s .prop).bracket_root =
          (check_schedule s.bracket_root s.match_queue).1 := by
        show (propagate s).bracket_root = _
        rcases hc : check_schedule s.bracket_root s.match_queue with ⟨t', q'⟩
        simp only [propagate, hc]
      have hb2 : Blocked (stepOp s .prop).bracket_root := by
        rw [htree]
        exact blocked_check s.bracket_root hb s.match_queue
      have hnd2 : (stepOp s .prop).bracket_root.idList.Nodup := by
        rw [htree, idList_check]
        exact hnd
      exact ih _ hb2 hnd2 hdisc

/-- C9 (claim theorem): if the construction split left some internal node
with one leaf child and one internal child (as happens whenever the entrant
count is not a power of two, e.g. n = 3), then under disciplined reporting —
results only for matches with both slots filled, i.e. playable matches —
no sequence of report and propagate operations ever decides the root or
even fills its slot 1: the tournament cannot complete through the
ready-match flow. -/
theorem mixed_split_never_completes (parts : List Nat) (st : GenState)
    (h2 : 2 ≤ parts.length) (p : List Dir) (m : Match) (l r : MatchTree)
    (hsub : sub (genTree parts st) p = some (.node m l r))
    (hml : m.is_leaf = false)
    (hmix : (l.isLeafRoot = true ∧ r.isInternalRoot = true) ∨
            (l.isInternalRoot = true ∧ r.isLeafRoot = true))
    (ps : List Player) (played : Nat) (q : List Nat) (ops : List Op)
    (hdisc : disciplinedB (sessionOf (genTree parts st) ps played q) ops
      = true) :
    (applyOps (sessionOf (genTree parts st) ps played q)
        ops).bracket_root.rootWinner = none ∧
    (applyOps (sessionOf (genTree parts st) ps played q)
        ops).bracket_root.rootPlayer1 = none := by
  obtain ⟨hso, hnd, -⟩ := genTree_facts parts st h2
  have hwf : WF (genTree parts st) = true := stateOk_WF _ hso
  have hb : Blocked (genTree parts st) :=
    blocked_init p (genTree parts st) hso hwf m l r hsub hml hmix
  have h := blocked_ops ops (sessionOf (genTree parts st) ps played q) hb hnd
    hdisc
  exact blocked_root _ h.1

/-- Witness for C9: the three-entrant bracket has the mixed split at its
root (internal semifinal 102 on the left, bare leaf 103 on the right);
reporting the only playable match and propagating leaves the root (the
final, match 104) undecided and with an empty slot 1. -/
theorem mixed_split_never_completes_witness :
    (applyOps (sessionOf (genTree [1, 2, 3] genStart) [] 0 [102])
        [Op.rep 102 1 21 15, Op.prop]).bracket_root.rootWinner = none ∧
    (applyOps (sessionOf (genTree [1, 2, 3] genStart) [] 0 [102])
        [Op.rep 102 1 21 15, Op.prop]).bracket_root.rootPlayer1 = none :=
  mixed_split_never_completes [1, 2, 3] genStart (by decide) []
    { match_id := 104, round := 2 }
    (.node { match_id := 102, player1 := some 1, player2 := some 2,
             round := 1 }
      (.node { match_id := 100, player1 := some 1, round := 1,
               is_leaf := true } .nil .nil)
      (.node { match_id := 101, player1 := some 2, round := 1,
               is_leaf := true } .nil .nil))
    (.node { match_id := 103, player1 := some 3, round := 1,
             is_leaf := true } .nil .nil)
    (by decide) (by decide) (by decide)
    [] 0 [102] [Op.rep 102 1 21 15, Op.prop] (by decide)

end Bracket
